import Mathlib

/-!
Verification development for the filter-expression-to-SQL compiler of this
repository (the `applyFilter` / JSON-query modules).

The embedding models JavaScript values (`Val`), the filter tree (a `Val`
object), the Knex query-builder state (`CState`, `Stmt`) and the compile /
render pipeline.  Knex semantics modelled here, following the source's own
`@NOTE` comments: a grouped `where(callback)` defers the callback until the
query is rendered (`toSQL`), rendering is a single left-to-right pass that
stringifies each statement immediately, and `whereExists(builder)` keeps a
reference to the (mutable) builder which is stringified at the moment the
referencing statement is rendered.

JS numbers are modelled as integers (`Val.vInt`); `parseFloat` is modelled on
the integer fragment of its grammar (the claims under study never involve
fractional literals).  Arrays and objects are encoded first-order (cons
cells inside the inductive) so that equality is decidable; `Val.arr` and
`Val.obj` build them from Lean lists.
-/

/-- A JavaScript value as used by the filter compiler.  Object entries keep
insertion order, like `Object.entries`. -/
inductive Val where
  | vNull
  | vUndef
  | vStr (s : String)
  | vInt (n : Int)
  | vArrNil
  | vArrCons (head : Val) (tail : Val)
  | vObjNil
  | vObjCons (key : String) (value : Val) (tail : Val)
deriving DecidableEq, Repr

namespace Val

/-- Build an array value from a Lean list. -/
def arr : List Val → Val
  | [] => vArrNil
  | x :: xs => vArrCons x (arr xs)

/-- Build an object value from a Lean association list. -/
def obj : List (String × Val) → Val
  | [] => vObjNil
  | (k, v) :: rest => vObjCons k v (obj rest)

/-- `value == null` (nullish test used by `??` / `??=`). -/
def nullish : Val → Bool
  | vNull => true
  | vUndef => true
  | _ => false

/-- `isObject` of `@directus/utils`: a plain object. -/
def isObject : Val → Bool
  | vObjNil => true
  | vObjCons .. => true
  | _ => false

/-- Is the value a JS array (`Array.isArray`). -/
def isArr : Val → Bool
  | vArrNil => true
  | vArrCons .. => true
  | _ => false

/-- The elements of an array value. -/
def arrElems : Val → List Val
  | vArrCons x t => x :: arrElems t
  | _ => []

/-- `Object.entries(v)` (only objects carry entries in the modelled fragment). -/
def objEntries : Val → List (String × Val)
  | vObjCons k v t => (k, v) :: objEntries t
  | _ => []

/-- `Object.keys(v).length === 0` for the values the compiler feeds to it. -/
def objKeysEmpty : Val → Bool
  | vObjNil => true
  | vObjCons .. => false
  | vStr s => s.isEmpty
  | vArrNil => true
  | vArrCons .. => false
  | _ => true

end Val

open Val

mutual
/-- JavaScript `ToString` for the modelled values. -/
def jsToString : Val → String
  | .vNull => "null"
  | .vUndef => "undefined"
  | .vStr s => s
  | .vInt n => toString n
  | .vObjNil => "[object Object]"
  | .vObjCons .. => "[object Object]"
  | .vArrNil => ""
  | .vArrCons h t => jsElemString h ++ jsArrTailString t

/-- One array element inside `Array.prototype.join`: nullish elements
stringify to the empty string, the rest as `jsToString`. -/
def jsElemString : Val → String
  | .vNull => ""
  | .vUndef => ""
  | .vStr s => s
  | .vInt n => toString n
  | .vObjNil => "[object Object]"
  | .vObjCons .. => "[object Object]"
  | .vArrNil => ""
  | .vArrCons h t => jsElemString h ++ jsArrTailString t

/-- The tail of an array inside `join`: a comma before every further element. -/
def jsArrTailString : Val → String
  | .vArrCons h t => "," ++ jsElemString h ++ jsArrTailString t
  | _ => ""
end

/-- `s.startsWith "_"`: the first character is the operator sigil.  (Stated
on the character list so that concrete instances evaluate.) -/
def sigil (s : String) : Bool := s.data.head? = some '_'

/-- `String.prototype.split` with a single-character separator. -/
def splitOnCharAux (c : Char) : List Char → List Char → List String
  | [], acc => [String.mk acc.reverse]
  | d :: rest, acc =>
    if d = c then String.mk acc.reverse :: splitOnCharAux c rest []
    else splitOnCharAux c rest (d :: acc)

def splitOnChar (c : Char) (s : String) : List String :=
  splitOnCharAux c s.data []

/-- Leading decimal digits of a character list, as a number. -/
def leadDigits (cs : List Char) : Option Nat :=
  let ds := cs.takeWhile Char.isDigit
  if ds.isEmpty then none
  else some (ds.foldl (fun acc c => 10 * acc + (c.toNat - '0'.toNat)) 0)

/-- `parseFloat` on a string, restricted to the integer fragment of its
grammar: optional sign followed by decimal digits (leading whitespace
skipped).  Returns `none` where JS returns `NaN`. -/
def parseFloatStr (s : String) : Option Int :=
  let cs := s.data.dropWhile fun c => c = ' ' || c = '\t' || c = '\n' || c = '\r'
  match cs with
  | '-' :: rest => (leadDigits rest).map fun n => -(n : Int)
  | '+' :: rest => (leadDigits rest).map fun n => (n : Int)
  | rest => (leadDigits rest).map fun n => (n : Int)

/-- `parseFloat(value)`: JS first converts the argument to a string. -/
def parseFloatVal (v : Val) : Option Int :=
  parseFloatStr (jsToString v)

/-- `Number.isFinite(parseFloat(value))`, the compiler's cast test. -/
def isFiniteParse (v : Val) : Bool :=
  (parseFloatVal v).isSome

/-- The SQL-side cast chosen for one condition value (`float` or `text`). -/
def castOf (v : Val) : String :=
  if isFiniteParse v then "float" else "text"

/-! ### Path & operator parser

`getFilterPath` and `getOperation` live outside the provided sources (only
their callers are under `src/`). -/

/-- Modelled from the spec: the path parser (§4.1) — a key whose value is an
object whose first key is an operator sigil terminates the path; otherwise the
first key is a further path segment and parsing recurses; `_none`/`_some` do
not terminate path building.  Matches `getFilterPath` as used by the sources. -/
def getFilterPath : String → Val → List String
  | key, .vObjCons childKey childVal _ =>
    if sigil childKey && childKey ≠ "_none" && childKey ≠ "_some" then
      [key]
    else
      key :: getFilterPath childKey childVal
  | key, _ => [key]

/-- Modelled from the spec: the operator parser (§4.1) — descend through the
first keys of nested objects until a key that starts with an operator sigil
(other than the combinators and `_none`/`_some`) is found; an object with no
such key yields no condition.  Matches `getOperation` as used by the sources. -/
def getOperation : String → Val → Option (String × Val)
  | key, v =>
    if sigil key && key ≠ "_and" && key ≠ "_or" && key ≠ "_none" && key ≠ "_some" then
      some (key, v)
    else
      match v with
      | .vObjCons childKey childVal _ => getOperation childKey childVal
      | _ => none

/-! ### Operator-to-SQL mapper (`getJsonOperatorAndValues`, json-query.ts) -/

/-- Errors of the modelled pipeline. -/
inductive Err where
  | invalidQuery (reason : String)
  | jsTypeError
  | outOfFuel
deriving DecidableEq, Repr

/-- Result of the operator mapper.  `post` is the filter value as observed
after the call: the source's `filterValue[0] ??= 0` writes into the bounds
array it was given, and `post` records that aliasing effect. -/
structure OpVals where
  operator : String
  values : List Val
  post : Val
deriving DecidableEq, Repr

/-- `arr[0] ??= 0` on a JS array: index 0 is written (extending the array if
empty) exactly when the element there is nullish. -/
def betweenSetLow : List Val → List Val
  | [] => [.vInt 0]
  | x :: t => if x.nullish then .vInt 0 :: t else x :: t

/-- The value-normalisation `switch` of `getJsonOperatorAndValues`
(json-query.ts lines 11-43): the bound values together with the filter value
as observed after the call (see `OpVals.post`).  Value shapes on which the JS
would throw a `TypeError` (`split` on a non-string, index assignment into a
primitive for the betweens) are returned as `Err.jsTypeError`. -/
def jsonOpValues (filterOperator : String) (filterValue : Val) :
    Except Err (List Val × Val) :=
  if filterOperator = "_contains" ∨ filterOperator = "_ncontains" ∨
     filterOperator = "_icontains" ∨ filterOperator = "_nicontains" then
    pure ([Val.vStr ("%" ++ jsToString filterValue ++ "%")], filterValue)
  else if filterOperator = "_starts_with" then
    pure ([Val.vStr (jsToString filterValue ++ "%")], filterValue)
  else if filterOperator = "_ends_with" then
    pure ([Val.vStr ("%" ++ jsToString filterValue)], filterValue)
  else if filterOperator = "_in" ∨ filterOperator = "_nin" then
    match filterValue with
    | .vStr s => pure ((splitOnChar ',' s).map Val.vStr, .vStr s)
    | v =>
      if v.isArr then pure (v.arrElems, v)
      else throw Err.jsTypeError
  else if filterOperator = "_gt" ∨ filterOperator = "_gte" ∨
          filterOperator = "_lt" ∨ filterOperator = "_lte" then
    pure ([match parseFloatVal filterValue with
           | some n => Val.vInt n
           | none => filterValue], filterValue)
  else if filterOperator = "_between" ∨ filterOperator = "_nbetween" then
    if filterValue.isArr then
      let xs := betweenSetLow filterValue.arrElems
      let low := xs.headD (.vInt 0)
      let high := match xs.get? 1 with
        | some y => if y.nullish then low else y
        | none => low
      pure ([low, high], Val.arr xs)
    else throw Err.jsTypeError
  else if filterOperator = "_empty" ∨ filterOperator = "_nempty" then
    pure (([] : List Val), filterValue)
  else
    pure ([filterValue], filterValue)

/-- The operator-template map of `getJsonOperatorAndValues` (json-query.ts
lines 45-64), including the `?? '= ?'` fallback for unrecognized operators;
the `IN` templates take one placeholder per bound value
(`values.map(() => '?').join(', ')`). -/
def jsonOpTemplate (filterOperator : String) (values : List Val) : String :=
  let placeholders := String.join (List.intersperse ", " (values.map fun _ => "?"))
  if filterOperator = "_eq" then "= ?"
  else if filterOperator = "_neq" then "!= ?"
  else if filterOperator = "_contains" then "LIKE ?"
  else if filterOperator = "_ncontains" then "NOT LIKE ?"
  else if filterOperator = "_icontains" then "LIKE ?"
  else if filterOperator = "_nicontains" then "NOT LIKE ?"
  else if filterOperator = "_starts_with" then "LIKE ?"
  else if filterOperator = "_ends_with" then "LIKE ?"
  else if filterOperator = "_gt" then "> ?"
  else if filterOperator = "_gte" then ">= ?"
  else if filterOperator = "_lt" then "< ?"
  else if filterOperator = "_lte" then "<= ?"
  else if filterOperator = "_in" then "IN (" ++ placeholders ++ ")"
  else if filterOperator = "_nin" then "NOT IN (" ++ placeholders ++ ")"
  else if filterOperator = "_empty" then "IS NULL"
  else if filterOperator = "_nempty" then "IS NOT NULL"
  else if filterOperator = "_between" then "BETWEEN ? AND ?"
  else if filterOperator = "_nbetween" then "NOT BETWEEN ? AND ?"
  else "= ?"

/-- The mapper `getJsonOperatorAndValues` of
`src/api/src/database/run-ast/lib/apply-query/filter/json-query.ts`:
the value `switch` followed by the template lookup. -/
def getJsonOperatorAndValues (filterOperator : String) (filterValue : Val) :
    Except Err OpVals := do
  let (values, post) ← jsonOpValues filterOperator filterValue
  pure { operator := jsonOpTemplate filterOperator values, values := values, post := post }

/-! ### JSON path compilation (`buildJsonPath`, json-query.ts) -/

/-- `segment.match(/^\[(.+)\]$/)?.[1] ?? segment`: unwrap one bracket token.
The JS `.` does not match line terminators, hence the newline guard. -/
def unwrapBracket (s : String) : String :=
  match s.data with
  | '[' :: rest =>
    if rest.length ≥ 2 && rest.getLast? = some ']' &&
       (rest.dropLast.all fun c => c ≠ '\n' && c ≠ '\r') then
      String.mk rest.dropLast
    else s
  | _ => s

/-- `/^[A-Za-z_][A-Za-z0-9_]*$/`. -/
def isIdentSeg (s : String) : Bool :=
  match s.data with
  | [] => false
  | c :: rest => (c.isAlpha || c = '_') && rest.all fun d => d.isAlphanum || d = '_'

/-- `key.replace(/"/g, '\\"')`. -/
def escapeQuotes (s : String) : String :=
  String.mk (s.data.foldr (fun c acc => if c = '"' then '\\' :: '"' :: acc else c :: acc) [])

/-- One path accessor token: `.segment` or `."segment"`. -/
def renderSeg (k : String) : String :=
  if isIdentSeg k then "." ++ k else ".\"" ++ escapeQuotes k ++ "\""

/-- The kept segments of a filter path: drop the root, unwrap bracket tokens,
drop operator segments. -/
def pathKeys (filterPath : List String) : List String :=
  ((filterPath.drop 1).map unwrapBracket).filter fun s => !(sigil s)

/-- The token loop of `buildJsonPath`: one accessor per key, with `[*]`
pushed after every key except the last. -/
def jsonPathTokens : List String → List String
  | [] => []
  | [k] => [renderSeg k]
  | k :: rest => renderSeg k :: "[*]" :: jsonPathTokens rest

/-- `buildJsonPath` of json-query.ts (the identical private copy also appears
in the unnamed filter module). -/
def buildJsonPath (filterPath : List String) : String :=
  String.join ("$" :: jsonPathTokens (pathKeys filterPath))

/-- The specification's phrasing of the same computation: `$`, then the
rendered kept segments with `[*]` inserted between each pair of successive
kept segments. -/
def buildJsonPathSpec (filterPath : List String) : String :=
  String.join ("$" :: List.intersperse "[*]" ((pathKeys filterPath).map renderSeg))

/-! ### Schema model (§3 / §6 of the spec: the read-only `SchemaOverview`) -/

/-- Association-list lookup (JS object / `Map.get`). -/
def lookupA {α : Type} : List (String × α) → String → Option α
  | [], _ => none
  | (k, v) :: rest, key => if k = key then some v else lookupA rest key

/-- A field's schema entry. -/
structure FieldInfo where
  ftype : String
deriving DecidableEq, Repr

/-- A collection's schema entry. -/
structure CollectionInfo where
  primary : String
  fields : List (String × FieldInfo)
deriving DecidableEq, Repr

/-- Modelled from the spec: a relation entry (§6) in the shape the source
consumes — `collection`/`field` name the many side, `related_collection` the
one side and `one_field` the alias field on the one side. -/
structure Relation where
  collection : String
  field : String
  related_collection : Option String
  one_field : Option String
deriving DecidableEq, Repr

/-- The schema view consumed by the compiler. -/
structure Schema where
  collections : List (String × CollectionInfo)
  relations : List Relation
deriving DecidableEq, Repr

def Schema.collectionInfo (s : Schema) (c : String) : Option CollectionInfo :=
  lookupA s.collections c

def Schema.fieldInfo (s : Schema) (c f : String) : Option FieldInfo :=
  (s.collectionInfo c).bind fun ci => lookupA ci.fields f

def Schema.fieldType (s : Schema) (c f : String) : Option String :=
  (s.fieldInfo c f).map FieldInfo.ftype

/-- Relation kinds exercised by the claims (`o2a`/`a2o` are not modelled). -/
inductive RelType where
  | m2o
  | o2m
deriving DecidableEq, Repr

/-- Modelled from the spec: `getRelationInfo` (§4.3) — find the relation a
field of a collection participates in; the field is a one-to-many alias field
when it is the `one_field` of a relation pointing back at the collection. -/
def getRelationInfo (relations : List Relation) (collection field : String) :
    Option Relation × Option RelType :=
  match relations.find? (fun r =>
      (r.collection = collection && r.field = field) ||
      (r.related_collection = some collection && r.one_field = some field)) with
  | some r =>
    (some r,
     if r.related_collection = some collection && r.one_field = some field then
       some .o2m
     else some .m2o)
  | none => (none, none)

/-! ### Query-builder state -/

/-- The logical flavour of a where clause (`dbQuery.and` / `dbQuery.or`). -/
inductive Log where
  | and
  | or
deriving DecidableEq, Repr

/-- One correlated-EXISTS predicate stored on a JSON row-source builder: the
`jsonb_path_query` sub-select (binding `jsonPath`) filtered by `whereSql`
(binding `whereBinds`). -/
structure JsonClause where
  jsonPath : String
  whereSql : String
  whereBinds : List Val
deriving DecidableEq, Repr

/-- A shared JSON row-source builder:
`knex.select('*').from(knex.raw('json_array_elements(??.??) as <alias>'))`.
These are the mutable builders kept in the `jsonQueries` map; clauses appended
after the builder has been rendered do not appear in the emitted SQL. -/
structure JsonBuilder where
  collection : String
  field : String
  aliasName : String
  wheres : List (Log × JsonClause)
deriving DecidableEq, Repr

/-- One statement of a regular builder (defunctionalised Knex statements:
deferred combinator groups, references to shared JSON builders, raw
comparisons, and the `_none`/`_some` IN sub-queries). -/
inductive Stmt where
  | grpAnd (subs : List Val)
  | grpOr (subs : List Val)
  | existsRef (id : Nat)
  | rawCmp (sql : String) (binds : List Val)
  | whereInSub (neg : Bool) (col : String) (childCollection : String)
      (childField : String) (inner : Val)
deriving DecidableEq, Repr

/-- Compilation state: the store of shared JSON builders, the `jsonQueries`
alias map (aliasKey → builder id), the join requests recorded by the modelled
`addJoin`, and the alias counter. -/
structure CState where
  builders : List JsonBuilder
  jsonQueries : List (String × Nat)
  joins : List (List String)
  nextAlias : Nat
deriving DecidableEq, Repr

def CState.init : CState := ⟨[], [], [], 0⟩

/-- Modelled: `generateAlias` draws a fresh random alias (nanoid); modelled as
a counter so aliases are deterministic. -/
def genAlias (n : Nat) : String := "alias" ++ toString n

/-- The shared builder-creation block (live filter module and
`handleCombinedJsonConditionsInAnd` both contain it verbatim): look the
`aliasKey` up in `jsonQueries`; only when absent, create the row-source
builder, register it, and report `created = true` so the caller adds the
`whereExists` reference. -/
def ensureJsonBuilder (st : CState) (collection field : String) :
    CState × Nat × Bool :=
  let aliasKey := collection ++ "." ++ field
  match lookupA st.jsonQueries aliasKey with
  | some id => (st, id, false)
  | none =>
    let id := st.builders.length
    ({ st with
        builders := st.builders ++ [⟨collection, field, genAlias st.nextAlias, []⟩],
        jsonQueries := st.jsonQueries ++ [(aliasKey, id)],
        nextAlias := st.nextAlias + 1 },
     id, true)

/-- Append one where clause to a shared JSON builder (`query[logical]` /
`query.whereExists` on the stored handle). -/
def pushClause (st : CState) (id : Nat) (lc : Log × JsonClause) : CState :=
  match st.builders.get? id with
  | some b => { st with builders := st.builders.set id { b with wheres := b.wheres ++ [lc] } }
  | none => st

/-! ### `addJsonQuery` (json-query.ts lines 93-108) -/

/-- The single-condition EXISTS clause built by `addJsonQuery`: cast decided
from the candidate value, json path from the full filter path, operator and
bound values from the mapper. -/
def addJsonQuery (filterPath : List String) (filterOperator : String)
    (filterValue : Val) : Except Err JsonClause := do
  let cast := castOf filterValue
  let jsonPath := buildJsonPath filterPath
  let r ← getJsonOperatorAndValues filterOperator filterValue
  pure { jsonPath := jsonPath,
         whereSql := "((json_value #>> '\x7b\x7d'))::" ++ cast ++ " " ++ r.operator,
         whereBinds := r.values }

/-! ### Sibling-condition merging -/

/-- One collected JSON leaf condition. -/
structure JCond where
  field : String
  path : List String
  operator : String
  value : Val
deriving DecidableEq, Repr

/-- JS `Map` push: append to the entry of `key` if present (insertion order
kept), otherwise add a new entry at the end. -/
def mapPush {α : Type} : List (String × List α) → String → α → List (String × List α)
  | [], key, a => [(key, [a])]
  | (k, xs) :: rest, key, a =>
    if k = key then (k, xs ++ [a]) :: rest else (k, xs) :: mapPush rest key a

/-- One conjunct of a merged predicate:
`(jsonb_extract_path_text(json_value, ?)::cast operator)` with bindings
`[field, ...values]`. -/
def mergedPiece (c : JCond) : Except Err (String × List Val) := do
  let r ← getJsonOperatorAndValues c.operator c.value
  pure ("(jsonb_extract_path_text(json_value, ?)::" ++ castOf c.value ++ " " ++ r.operator ++ ")",
        Val.vStr c.field :: r.values)

/-- The merged EXISTS clause for a group of conditions: conjuncts joined with
`AND`, bindings `[field1, values1..., field2, values2, ...]`. -/
def mergedClause (jsonPath : String) (conds : List JCond) : Except Err JsonClause := do
  let pieces ← conds.mapM mergedPiece
  pure { jsonPath := jsonPath,
         whereSql := String.intercalate " AND " (pieces.map Prod.fst),
         whereBinds := (pieces.map Prod.snd).flatten }

/-- First value of an object (`Object.values(v)[0]`, `undefined` if empty). -/
def firstValD (v : Val) : Val :=
  match v.objEntries.head? with
  | some (_, w) => w
  | none => (.vUndef)

/-! ### `handleJsonFieldWithAndOr` (json-query.ts lines 110-228)

Adds clauses to the shared JSON row-source builder `id` for a JSON field whose
value carries `_and`/`_or` combinators. -/

def handleJsonFieldWithAndOr (st : CState) (id : Nat) (key : String)
    (value : Val) (logical : Log) : Except Err CState := do
  let nestedFilters := value.objEntries
  if nestedFilters.isEmpty then return st
  nestedFilters.foldlM (fun st nf => do
    let (nestedKey, nestedValue) := nf
    if nestedKey = "_and" then
      if !nestedValue.isArr then throw Err.jsTypeError
      else
        let conditions := (nestedValue.arrElems).flatMap fun subFilter =>
          (subFilter.objEntries).filterMap fun sv =>
            match getOperation sv.1 sv.2 with
            | none => none
            | some (op, opv) =>
              let subPath := key :: getFilterPath sv.1 sv.2
              some ({ field := subPath.getLastD "", path := subPath,
                      operator := op, value := opv } : JCond)
        let grouped := conditions.foldl
          (fun m c => mapPush m (String.intercalate "." c.path.dropLast) c) []
        grouped.foldlM (fun st g => do
          match g.2 with
          | [] => pure st
          | [c] => do
            let clause ← addJsonQuery c.path c.operator c.value
            pure (pushClause st id (logical, clause))
          | c :: _ :: _ => do
            let basePath := c.path.dropLast
            let jsonPath := buildJsonPath basePath
            let clause ← mergedClause jsonPath g.2
            pure (pushClause st id (Log.and, clause))) st
    else if nestedKey = "_or" then
      if !nestedValue.isArr then throw Err.jsTypeError
      else
        (nestedValue.arrElems).foldlM (fun st subFilter =>
          (subFilter.objEntries).foldlM (fun st sv => do
            match getOperation sv.1 sv.2 with
            | none => pure st
            | some (op, opv) => do
              let subPath := key :: getFilterPath sv.1 sv.2
              let clause ← addJsonQuery subPath op opv
              pure (pushClause st id (Log.or, clause))) st) st
    else
      match getOperation nestedKey nestedValue with
      | none => pure st
      | some (op, opv) => do
        let nestedPath := key :: getFilterPath nestedKey nestedValue
        let clause ← addJsonQuery nestedPath op opv
        pure (pushClause st id (logical, clause))) st

/-! ### `handleCombinedJsonConditionsInAnd` (json-query.ts lines 230-329) -/

/-- One step of the condition-collection loop of
`handleCombinedJsonConditionsInAnd` (one entry of one sub-filter). -/
def collectJsonCondition (schema : Schema) (collection : String)
    (m : List (String × List JCond)) (sv : String × Val) :
    List (String × List JCond) :=
  if schema.fieldType collection sv.1 = some "json" ∧ sv.2.isObject then
    let nestedPath := getFilterPath sv.1 sv.2
    if nestedPath.length > 1 then
      match getOperation ((nestedPath.get? 1).getD "") (firstValD sv.2) with
      | some (op, opv) =>
        let fullPath := sv.1 :: nestedPath.drop 1
        let basePath := fullPath.dropLast
        let basePathKey := sv.1 ++ "." ++ String.intercalate "." (basePath.drop 1)
        mapPush m basePathKey
          { field := fullPath.getLastD "", path := fullPath,
            operator := op, value := opv }
      | none => m
    else m
  else m

/-- The condition-collection loop of `handleCombinedJsonConditionsInAnd`. -/
def collectJsonConditions (schema : Schema) (collection : String)
    (subFilters : List Val) : List (String × List JCond) :=
  subFilters.foldl (fun m subFilter =>
    (subFilter.objEntries).foldl (collectJsonCondition schema collection) m) []

/-- Collect the JSON leaf conditions of the sub-filters of an `_and` group,
keyed by `field.basePath`, then emit one merged EXISTS per group of two or
more conditions into the shared row-source builder (creating it — and the
`whereExists` reference statement for the enclosing group — only when its
alias key is new).  Returns the updated state, the statements for the
enclosing group, and the collected condition map. -/
def handleCombinedJsonConditionsInAnd (schema : Schema) (collection : String)
    (subFilters : List Val) (st : CState) :
    Except Err (CState × List (Log × Stmt) × List (String × List JCond)) := do
  let jsonConditions := collectJsonConditions schema collection subFilters
  let r ← jsonConditions.foldlM (fun acc g => do
    let (st, stmts) := acc
    if g.2.length > 1 then
      match splitOnChar '.' g.1 with
      | [] => pure (st, stmts)
      | fieldName :: basePathParts =>
        if fieldName = "" then pure (st, stmts)
        else do
          let basePath := fieldName :: basePathParts
          -- We want to target individual items in the array at this base path
          let jsonPath := buildJsonPath basePath ++ "[*]"
          let (st, id, created) := ensureJsonBuilder st collection fieldName
          let stmts := stmts ++ (if created then [(Log.and, Stmt.existsRef id)] else [])
          let clause ← mergedClause jsonPath g.2
          pure (pushClause st id (Log.and, clause), stmts)
    else pure (st, stmts)) (st, ([] : List (Log × Stmt)))
  pure (r.1, r.2, jsonConditions)

/-! ### Modelled collaborators of the recursive compiler -/

/-- Modelled from the spec: §4.6 `validateOperator` — reject pattern-matching
operators on non-text field types; only this fragment of the validation table
is exercised by the development. -/
def validateOperator (ftype filterOperator : String) : Except Err Unit :=
  if (filterOperator = "_contains" ∨ filterOperator = "_ncontains" ∨
      filterOperator = "_icontains" ∨ filterOperator = "_nicontains" ∨
      filterOperator = "_starts_with" ∨ filterOperator = "_ends_with") ∧
     ¬(ftype = "string" ∨ ftype = "text") then
    throw (Err.invalidQuery ("Invalid filter operator for field type " ++ ftype))
  else pure ()

/-- Quote a dotted column path the way Knex formats identifiers. -/
def quoteCol (s : String) : String :=
  String.intercalate "." ((splitOnChar '.' s).map fun p => "\"" ++ p ++ "\"")

/-- Modelled from the spec: §4.2 `applyOperator` — a direct comparison against
the resolved column using the operator template and normalised values. -/
def applyOperator (columnPath filterOperator : String) (filterValue : Val) :
    Except Err Stmt := do
  let r ← getJsonOperatorAndValues filterOperator filterValue
  pure (.rawCmp (quoteCol columnPath ++ " " ++ r.operator) r.values)

/-- Modelled from the spec: §4.3 `getColumnPath` — resolve a relational path
to a joined column reference and its target collection; an out-of-scope
collaborator, modelled at interface level. -/
def getColumnPath (collection : String) (path : List String) :
    Option (String × String) :=
  some (collection ++ "." ++ path.getLastD "", collection)

/-- Modelled from the spec: §4.3 `addJoin` — plan the joins for a relation
path; modelled as recording the requested path. -/
def addJoin (st : CState) (path : List String) : CState :=
  { st with joins := st.joins ++ [path] }

/-! ### The recursive filter compiler (`addWhereClauses`)

The embedded version is the live filter module (the one importing
json-query.ts); the unnamed duplicate module agrees with it on every line
range the claims cite.  `compileEntry` is the body of the `for` loop of
`addWhereClauses`: it performs the immediate effects (row-source creation,
clauses pushed onto shared builders, the `_none`/`_some` validation) and
emits defunctionalised statements; deferred group callbacks are executed by
`renderStmts` below, in render order, as Knex does. -/

def compileEntry (schema : Schema) (collection : String) (logical : Log)
    (st : CState) (key : String) (value : Val) :
    Except Err (CState × List (Log × Stmt)) := do
  if key = "_or" ∨ key = "_and" then
    if !value.isArr then throw Err.jsTypeError
    else
      let subs := value.arrElems
      if key = "_or" ∧ subs.any Val.objKeysEmpty then pure (st, [])
      else if key = "_and" then pure (st, [(logical, .grpAnd subs)])
      else pure (st, [(logical, .grpOr subs)])
  else
    let filterPath := getFilterPath key value
    let pathRoot := (splitOnChar ':' (filterPath.headD "")).headD ""
    let relInfo := getRelationInfo schema.relations collection pathRoot
    if schema.fieldType collection key = some "json" ∧ value.isObject ∧
       (value.objEntries.any fun e => e.1 == "_and" || e.1 == "_or") then
      let (st, id, created) := ensureJsonBuilder st collection key
      let stmts := if created then [(Log.and, Stmt.existsRef id)] else []
      let st ← handleJsonFieldWithAndOr st id key value logical
      pure (st, stmts)
    else
      match getOperation key value with
      | none => pure (st, [])
      | some (filterOperator, filterValue) =>
        if filterPath.length > 1 ∨
           (¬(key.data.contains '(' ∧ key.data.contains ')') ∧
            schema.fieldType collection key = some "alias") then
          if schema.fieldType collection key = some "json" then do
            let (st, id, created) := ensureJsonBuilder st collection key
            let stmts := if created then [(Log.and, Stmt.existsRef id)] else []
            let nestedFilters := value.objEntries
            if nestedFilters.isEmpty then pure (st, stmts)
            else do
              let st ← nestedFilters.foldlM (fun st nf => do
                let (nestedKey, nestedValue) := nf
                if nestedKey = "_and" ∨ nestedKey = "_or" then
                  let nestedLogical := if nestedKey = "_and" then Log.and else Log.or
                  if !nestedValue.isArr then throw Err.jsTypeError
                  else
                    (nestedValue.arrElems).foldlM (fun st subFilter =>
                      (subFilter.objEntries).foldlM (fun st sv => do
                        match getOperation sv.1 sv.2 with
                        | none => pure st
                        | some (op, opv) => do
                          let subPath := key :: getFilterPath sv.1 sv.2
                          let clause ← addJsonQuery subPath op opv
                          pure (pushClause st id (nestedLogical, clause))) st) st
                else
                  match getOperation nestedKey nestedValue with
                  | none => pure st
                  | some (op, opv) => do
                    let nestedPath := key :: getFilterPath nestedKey nestedValue
                    let clause ← addJsonQuery nestedPath op opv
                    pure (pushClause st id (logical, clause))) st
              pure (st, stmts)
          else
            match relInfo.1 with
            | none => pure (st, [])
            | some relation =>
              let childKey := (value.objEntries.head?).map Prod.fst
              if relInfo.2 = some RelType.o2m ∧
                 (childKey = some "_none" ∨ childKey = some "_some") then
                match relation.related_collection.bind
                    (fun rc => (schema.collectionInfo rc).map CollectionInfo.primary) with
                | none => throw Err.jsTypeError
                | some pk =>
                  let inner := ((value.objEntries.head?).map Prod.snd).getD .vUndef
                  pure (st, [(logical,
                    .whereInSub (childKey == some "_none") (collection ++ "." ++ pk)
                      relation.collection relation.field inner)])
              else if filterPath.contains "_none" ∨ filterPath.contains "_some" then
                throw (Err.invalidQuery ("\"" ++
                  (if filterPath.contains "_none" then "_none" else "_some") ++
                  "\" can only be used with top level relational alias field"))
              else
                match getColumnPath collection filterPath with
                | none => pure (st, [])
                | some (columnPath, targetCollection) =>
                  match schema.fieldType targetCollection (filterPath.getLastD "") with
                  | none => throw Err.jsTypeError
                  | some t => do
                    validateOperator t filterOperator
                    let s ← applyOperator columnPath filterOperator filterValue
                    pure (st, [(logical, s)])
        else
          match schema.fieldType collection (filterPath.headD "") with
          | none => throw Err.jsTypeError
          | some t => do
            validateOperator t filterOperator
            let s ← applyOperator (collection ++ "." ++ filterPath.headD "")
              filterOperator filterValue
            pure (st, [(logical, s)])

/-- The entry loop of `addWhereClauses` for one filter object. -/
def compileFilter (schema : Schema) (collection : String) (logical : Log)
    (st : CState) (filter : Val) : Except Err (CState × List (Log × Stmt)) :=
  (filter.objEntries).foldlM (fun acc kv => do
    let (st', ss) ← compileEntry schema collection logical acc.1 kv.1 kv.2
    pure (st', acc.2 ++ ss)) (st, [])

/-! ### The join-discovery pass (`addJoins`)

`sameAsCases` models the JS reference equality `value === cases` against the
permission-cases array (reference identity is not observable on pure values,
so it is passed in as a predicate). -/

def addJoins (schema : Schema) (sameAsCases : Val → Bool) (collection : String) :
    Nat → CState → Val → Except Err CState
  | 0, _, _ => throw Err.outOfFuel
  | fuel + 1, st, filter =>
    (filter.objEntries).foldlM (fun st kv => do
      let (key, value) := kv
      if key = "_or" ∨ key = "_and" then
        if !value.isArr then throw Err.jsTypeError
        else
          let subs := value.arrElems
          if key = "_or" ∧ subs.any Val.objKeysEmpty then
            if ¬sameAsCases value ∨ subs.length = 1 then pure st
            else
              (subs.filter fun s => !s.objKeysEmpty).foldlM
                (fun st sf => addJoins schema sameAsCases collection fuel st sf) st
          else
            subs.foldlM (fun st sf => addJoins schema sameAsCases collection fuel st sf) st
      else
        let filterPath := getFilterPath key value
        if filterPath.length > 1 ∨
           (¬(key.data.contains '(' ∧ key.data.contains ')') ∧
            schema.fieldType collection key = some "alias") then
          pure (addJoin st filterPath)
        else pure st) st

/-! ### Rendering (`toSQL`) -/

/-- The boolean word Knex writes before a kept where fragment. -/
def logWord : Log → String
  | .and => " and "
  | .or => " or "

/-- Render one stored EXISTS predicate of a JSON row-source builder. -/
def renderJsonClause (aliasName : String) (c : JsonClause) : String × List Val :=
  ("exists (select 1 from jsonb_path_query((" ++ aliasName ++
     ")::jsonb, ?) as json_path_value(json_value) where " ++ c.whereSql ++ ")",
   Val.vStr c.jsonPath :: c.whereBinds)

/-- Knex's where-fragment joiner: empty fragments are dropped, the first kept
fragment stands alone, every further one is prefixed by its own boolean word. -/
def joinKept (l : List (Log × String × List Val)) : String × List Val :=
  match l.filter (fun p => !p.2.1.isEmpty) with
  | [] => ("", [])
  | p :: rest =>
    (p.2.1 ++ String.join (rest.map fun q => logWord q.1 ++ q.2.1),
     p.2.2 ++ (rest.map fun q => q.2.2).flatten)

def quoteId (s : String) : String := "\"" ++ s ++ "\""

/-- Render a JSON row-source builder at its current state (a later mutation
of the builder is not reflected in SQL already produced). -/
def renderJsonBuilder (b : JsonBuilder) : String × List Val :=
  let (w, binds) := joinKept (b.wheres.map fun lc =>
    (lc.1, renderJsonClause b.aliasName lc.2))
  ("select * from json_array_elements(" ++ quoteId b.collection ++ "." ++
     quoteId b.field ++ ") as " ++ b.aliasName ++
     (if w = "" then "" else " where " ++ w),
   binds)

/-- The skip test of the live `_and` group body: a sub-filter is skipped when
one of its keys is a JSON field whose collected base-path group holds more
than one condition (those were already folded into a merged EXISTS). -/
def shouldSkipSub (schema : Schema) (collection : String)
    (jsonConds : List (String × List JCond)) (subFilter : Val) : Bool :=
  (subFilter.objEntries).any fun kv =>
    (schema.fieldType collection kv.1 == some "json") &&
    (match lookupA jsonConds (kv.1 ++ "." ++
        String.intercalate "." (((getFilterPath kv.1 kv.2).drop 1).dropLast)) with
     | some cs => cs.length > 1
     | none => false)

/-- Render a statement list in order, threading the state: a deferred group
statement first runs its compile logic (exactly what the Knex callback does
at `toSQL` time — for `_and` groups `handleCombinedJsonConditionsInAnd`
followed by the skip-aware recursion, for `_or` groups the plain recursion)
and then renders the statements it produced.  Returns the kept fragments. -/
def renderStmts (schema : Schema) (collection : String) :
    Nat → CState → List (Log × Stmt) →
    Except Err (CState × List (Log × String × List Val))
  | 0, _, _ => throw Err.outOfFuel
  | _ + 1, st, [] => pure (st, [])
  -- the fuel bounds the total number of statements rendered (one unit per
  -- statement, including the statements of nested groups)
  | fuel + 1, st, (l, s) :: rest => do
    let (st, piece, pbinds) ←
      (match s with
       | .existsRef id =>
         match st.builders.get? id with
         | some b =>
           let (bsql, bbinds) := renderJsonBuilder b
           pure (st, "exists (" ++ bsql ++ ")", bbinds)
         | none => throw Err.jsTypeError
       | .rawCmp sql binds => pure (st, sql, binds)
       | .whereInSub neg col child cf _ =>
         -- applyQuery's recursive filter application inside the sub-query is
         -- an external collaborator; the sub-select below is the part the
         -- source builds itself.
         pure (st, quoteCol col ++ (if neg then " not in (" else " in (") ++
               "select " ++ quoteId child ++ "." ++ quoteId cf ++ " as " ++
               quoteId cf ++ " from " ++ quoteId child ++ " where " ++
               quoteId child ++ "." ++ quoteId cf ++ " is not null)", [])
       | .grpAnd subs => do
         let (st, exStmts, jsonConds) ←
           handleCombinedJsonConditionsInAnd schema collection subs st
         let (st, moreStmts) ← subs.foldlM (fun acc subFilter => do
             if shouldSkipSub schema collection jsonConds subFilter then pure acc
             else do
               let (st', ss) ← compileFilter schema collection Log.and acc.1 subFilter
               pure (st', acc.2 ++ ss)) (st, ([] : List (Log × Stmt)))
         let (st, pieces) ← renderStmts schema collection fuel st (exStmts ++ moreStmts)
         let (inner, ibinds) := joinKept pieces
         if inner = "" then pure (st, "", ([] : List Val))
         else pure (st, "(" ++ inner ++ ")", ibinds)
       | .grpOr subs => do
         let (st, stmts) ← subs.foldlM (fun acc subFilter => do
             let (st', ss) ← compileFilter schema collection Log.or acc.1 subFilter
             pure (st', acc.2 ++ ss)) (st, ([] : List (Log × Stmt)))
         let (st, pieces) ← renderStmts schema collection fuel st stmts
         let (inner, ibinds) := joinKept pieces
         if inner = "" then pure (st, "", ([] : List Val))
         else pure (st, "(" ++ inner ++ ")", ibinds))
    let (st, tailPieces) ← renderStmts schema collection fuel st rest
    pure (st, (if piece = "" then [] else [(l, piece, pbinds)]) ++ tailPieces)

/-- The whole `applyFilter` call followed by `toSQL`: the join-discovery
pass, the top-level `addWhereClauses` pass (which only records deferred
groups and immediate effects), and the render pass that executes the
deferred callbacks in statement order. -/
def applyFilter (fuel : Nat) (schema : Schema) (collection : String)
    (sameAsCases : Val → Bool) (rootFilter : Val) :
    Except Err (CState × String × List Val) := do
  let st ← addJoins schema sameAsCases collection fuel CState.init rootFilter
  let (st, stmts) ← compileFilter schema collection Log.and st rootFilter
  let (st, pieces) ← renderStmts schema collection fuel st stmts
  let (w, binds) := joinKept pieces
  pure (st, (if w = "" then "select *" else "select * where " ++ w), binds)

/-- Projections for stating theorems about pipeline results. -/
def resultSql : Except Err (CState × String × List Val) → Option String
  | .ok r => some r.2.1
  | .error _ => none

def resultBinds : Except Err (CState × String × List Val) → Option (List Val)
  | .ok r => some r.2.2
  | .error _ => none

def resultState : Except Err (CState × String × List Val) → Option CState
  | .ok r => some r.1
  | .error _ => none

/-! ## Helper lemmas -/

instance {E A : Type} [DecidableEq E] [DecidableEq A] : DecidableEq (Except E A) :=
  fun a b =>
    match a, b with
    | .ok x, .ok y =>
      if h : x = y then isTrue (by rw [h]) else isFalse (by simp [h])
    | .error x, .error y =>
      if h : x = y then isTrue (by rw [h]) else isFalse (by simp [h])
    | .ok _, .error _ => isFalse (by simp)
    | .error _, .ok _ => isFalse (by simp)

theorem strJoin_cons (a : String) (l : List String) :
    String.join (a :: l) = a ++ String.join l := by
  simp [String.join_eq]
  rfl

/-- Number of `?` placeholders in a SQL fragment. -/
def countQ (s : String) : Nat := s.data.count '?'

theorem countQ_append (a b : String) : countQ (a ++ b) = countQ a + countQ b := by
  simp [countQ, String.data_append]

theorem countQ_placeholders (l : List Val) :
    countQ (String.join (List.intersperse ", " (l.map fun _ => "?"))) = l.length := by
  induction l with
  | nil => rfl
  | cons x rest ih =>
    cases rest with
    | nil => rfl
    | cons y rest' =>
      simp only [List.map_cons, List.intersperse] at ih ⊢
      rw [strJoin_cons, strJoin_cons, countQ_append, countQ_append, ih]
      simp [countQ]
      omega

theorem jsonPathTokens_intersperse (ks : List String) :
    jsonPathTokens ks = List.intersperse "[*]" (ks.map renderSeg) := by
  induction ks with
  | nil => rfl
  | cons k rest ih =>
    cases rest with
    | nil => rfl
    | cons k' rest' => simp_all [jsonPathTokens, List.intersperse]

theorem arrElems_arr (l : List Val) : (Val.arr l).arrElems = l := by
  induction l with
  | nil => rfl
  | cons x rest ih => simp [Val.arr, Val.arrElems, ih]

/-! ## Claims -/

/-- C3: for every field path, `buildJsonPath` drops the root segment, unwraps
index-bracket tokens, excludes operator segments, and returns `$` followed by
one `.segment` / quote-escaped `."segment"` accessor per kept segment with
`[*]` inserted between each pair of successive kept segments; in particular
`["activities","beneficiaries","deliverables","type"]` compiles to
`$.beneficiaries[*].deliverables[*].type`. -/
theorem C3_buildJsonPath_matches_spec :
    (∀ filterPath : List String, buildJsonPath filterPath = buildJsonPathSpec filterPath) ∧
    buildJsonPath ["activities", "beneficiaries", "deliverables", "type"] =
      "$.beneficiaries[*].deliverables[*].type" := by
  constructor
  · intro fp
    unfold buildJsonPath buildJsonPathSpec
    rw [jsonPathTokens_intersperse]
  · decide

/-- The operator set of the template map in `getJsonOperatorAndValues`. -/
def recognizedJsonOperators : List String :=
  ["_eq", "_neq", "_contains", "_ncontains", "_icontains", "_nicontains",
   "_starts_with", "_ends_with", "_gt", "_gte", "_lt", "_lte", "_in", "_nin",
   "_empty", "_nempty", "_between", "_nbetween"]

/-- C6: for every operator name outside the recognized set and any value, the
JSON operator-to-SQL mapping silently falls back to equality — template
`= ?`, the value passed through as the single bound value — and never raises. -/
theorem C6_unrecognized_operator_falls_back_to_eq (op : String) (v : Val)
    (h : op ∉ recognizedJsonOperators) :
    getJsonOperatorAndValues op v = .ok ⟨"= ?", [v], v⟩ := by
  simp only [recognizedJsonOperators, List.mem_cons, List.not_mem_nil, or_false,
    not_or] at h
  obtain ⟨h1, h2, h3, h4, h5, h6, h7, h8, h9, h10, h11, h12, h13, h14, h15,
    h16, h17, h18⟩ := h
  simp only [getJsonOperatorAndValues, jsonOpValues, jsonOpTemplate, h1, h2, h3,
    h4, h5, h6, h7, h8, h9, h10, h11, h12, h13, h14, h15, h16, h17, h18,
    if_false, ite_false, or_self, false_or, if_neg, not_false_iff]
  rfl

/-- C6 witness. -/
theorem C6_unrecognized_operator_falls_back_to_eq_witness :
    ("_matches" ∉ recognizedJsonOperators) ∧
    getJsonOperatorAndValues "_matches" (Val.vInt 7) =
      .ok ⟨"= ?", [Val.vInt 7], Val.vInt 7⟩ :=
  ⟨by decide, C6_unrecognized_operator_falls_back_to_eq "_matches" (Val.vInt 7) (by decide)⟩

theorem jsonOpValues_post_eq (op : String) (v : Val) (vals : List Val) (post : Val)
    (hb : op ≠ "_between") (hnb : op ≠ "_nbetween")
    (h : jsonOpValues op v = .ok (vals, post)) : post = v := by
  unfold jsonOpValues at h
  repeat' split at h
  all_goals simp_all [pure, Except.pure]

theorem jsonOpValues_between_cons (op : String)
    (hop : op = "_between" ∨ op = "_nbetween") (x : Val) (rest : List Val)
    (vals : List Val) (post : Val)
    (h : jsonOpValues op (Val.arr (x :: rest)) = .ok (vals, post)) :
    post = Val.arr (if x.nullish then Val.vInt 0 :: rest else x :: rest) := by
  rcases hop with rfl | rfl <;>
    simp_all [jsonOpValues, Val.arr, Val.isArr, Val.arrElems, arrElems_arr,
      betweenSetLow, pure, Except.pure]

theorem getJsonOperatorAndValues_ok_iff (op : String) (v : Val) (r : OpVals) :
    getJsonOperatorAndValues op v = .ok r ↔
    jsonOpValues op v = .ok (r.values, r.post) ∧
      r.operator = jsonOpTemplate op r.values := by
  unfold getJsonOperatorAndValues
  cases hjv : jsonOpValues op v with
  | error e => simp [hjv, Except.bind]
  | ok p =>
    cases p with
    | mk vals post =>
      cases r with
      | mk ro rv rp =>
        simp only [hjv, Except.bind, bind, pure, Except.pure, Except.ok.injEq,
          OpVals.mk.injEq, Prod.mk.injEq]
        constructor
        · rintro ⟨h1, h2, h3⟩
          exact ⟨⟨h2, h3⟩, by rw [← h1, h2]⟩
        · rintro ⟨⟨h2, h3⟩, h1⟩
          exact ⟨by rw [h1, h2], h2, h3⟩

/-- The filter value as observed after the mapper ran (for stating frame
effects). -/
def mapperPost (op : String) (v : Val) : Option Val :=
  match getJsonOperatorAndValues op v with
  | .ok r => some r.post
  | .error _ => none

/-- C7 counterexample: compiling a `_between` condition whose bounds array
has a nullish lower bound does modify the bounds array — `[undefined, 5]`
is observed as `[0, 5]` after the mapper runs, so compilation does not leave
the filter tree unchanged. -/
theorem C7_between_mutates_counterexample :
    mapperPost "_between" (Val.arr [Val.vUndef, Val.vInt 5]) ≠
      some (Val.arr [Val.vUndef, Val.vInt 5]) ∧
    mapperPost "_between" (Val.arr [Val.vUndef, Val.vInt 5]) =
      some (Val.arr [Val.vInt 0, Val.vInt 5]) := by decide

/-- C7 amended: compilation leaves the filter value it was given unchanged,
except that compiling a `_between`/`_nbetween` condition writes the default
lower bound `0` into index 0 of the bounds array exactly when the bound there
is nullish (the source's `filterValue[0] ??= 0`). -/
theorem C7_amended_frame_effect (op : String) (v : Val) (r : OpVals) :
    (op ≠ "_between" → op ≠ "_nbetween" →
      getJsonOperatorAndValues op v = .ok r → r.post = v) ∧
    (∀ x rest, (op = "_between" ∨ op = "_nbetween") → v = Val.arr (x :: rest) →
      getJsonOperatorAndValues op v = .ok r →
      r.post = Val.arr (if x.nullish then Val.vInt 0 :: rest else x :: rest)) := by
  constructor
  · intro hb hnb h
    exact jsonOpValues_post_eq op v r.values r.post hb hnb
      ((getJsonOperatorAndValues_ok_iff op v r).mp h).1
  · intro x rest hop hv h
    rw [hv] at h
    exact jsonOpValues_between_cons op hop x rest r.values r.post
      ((getJsonOperatorAndValues_ok_iff op (Val.arr (x :: rest)) r).mp h).1

/-- C8: for every defined operator and every value of the shape that operator
expects, the mapper's template has exactly one `?` placeholder per bound
value; `_between`/`_nbetween` produce 2 placeholders and 2 values (a nullish
lower bound replaced by 0, a nullish upper bound by the lower bound),
`_empty`/`_nempty` produce 0 and 0, `_in`/`_nin` one per expanded element,
and every other operator 1 and 1. -/
theorem C8_placeholder_count_matches_values (op : String) (v : Val)
    (hop : op ∈ recognizedJsonOperators)
    (hin : op = "_in" ∨ op = "_nin" → (∃ s, v = Val.vStr s) ∨ v.isArr)
    (hbt : op = "_between" ∨ op = "_nbetween" → v.isArr) :
    ∃ r, getJsonOperatorAndValues op v = .ok r ∧
      countQ r.operator = r.values.length ∧
      (op = "_between" ∨ op = "_nbetween" → r.values.length = 2) ∧
      (op = "_empty" ∨ op = "_nempty" → r.values.length = 0) ∧
      ((op = "_in" ∨ op = "_nin") → ∀ s, v = Val.vStr s →
        r.values = (splitOnChar ',' s).map Val.vStr) ∧
      (op = "_between" ∨ op = "_nbetween" → ∀ x y, v = Val.arr [x, y] →
        r.values = [if x.nullish then Val.vInt 0 else x,
          if y.nullish then (if x.nullish then Val.vInt 0 else x) else y]) := by
  have hq := countQ_placeholders
  simp only [recognizedJsonOperators, List.mem_cons, List.not_mem_nil, or_false] at hop
  rcases hop with rfl | rfl | rfl | rfl | rfl | rfl | rfl | rfl | rfl | rfl | rfl |
    rfl | rfl | rfl | rfl | rfl | rfl | rfl
  -- _eq, _neq
  · exact ⟨⟨"= ?", [v], v⟩, rfl, rfl, by simp, by simp, by simp, by simp⟩
  · exact ⟨⟨"!= ?", [v], v⟩, rfl, rfl, by simp, by simp, by simp, by simp⟩
  -- _contains family
  · exact ⟨⟨"LIKE ?", [Val.vStr ("%" ++ jsToString v ++ "%")], v⟩, rfl, rfl,
      by simp, by simp, by simp, by simp⟩
  · exact ⟨⟨"NOT LIKE ?", [Val.vStr ("%" ++ jsToString v ++ "%")], v⟩, rfl, rfl,
      by simp, by simp, by simp, by simp⟩
  · exact ⟨⟨"LIKE ?", [Val.vStr ("%" ++ jsToString v ++ "%")], v⟩, rfl, rfl,
      by simp, by simp, by simp, by simp⟩
  · exact ⟨⟨"NOT LIKE ?", [Val.vStr ("%" ++ jsToString v ++ "%")], v⟩, rfl, rfl,
      by simp, by simp, by simp, by simp⟩
  · exact ⟨⟨"LIKE ?", [Val.vStr (jsToString v ++ "%")], v⟩, rfl, rfl,
      by simp, by simp, by simp, by simp⟩
  · exact ⟨⟨"LIKE ?", [Val.vStr ("%" ++ jsToString v)], v⟩, rfl, rfl,
      by simp, by simp, by simp, by simp⟩
  -- _gt family
  · exact ⟨⟨"> ?", [match parseFloatVal v with | some n => Val.vInt n | none => v], v⟩,
      rfl, rfl, by simp, by simp, by simp, by simp⟩
  · exact ⟨⟨">= ?", [match parseFloatVal v with | some n => Val.vInt n | none => v], v⟩,
      rfl, rfl, by simp, by simp, by simp, by simp⟩
  · exact ⟨⟨"< ?", [match parseFloatVal v with | some n => Val.vInt n | none => v], v⟩,
      rfl, rfl, by simp, by simp, by simp, by simp⟩
  · exact ⟨⟨"<= ?", [match parseFloatVal v with | some n => Val.vInt n | none => v], v⟩,
      rfl, rfl, by simp, by simp, by simp, by simp⟩
  -- _in / _nin
  · rcases hin (Or.inl rfl) with ⟨s, rfl⟩ | harr
    · refine ⟨⟨jsonOpTemplate "_in" ((splitOnChar ',' s).map Val.vStr),
        (splitOnChar ',' s).map Val.vStr, Val.vStr s⟩, rfl, ?_,
        by simp, by simp, by simp, by simp⟩
      show countQ ("IN (" ++ String.join (List.intersperse ", " (List.map (fun _ => "?") ((splitOnChar ',' s).map Val.vStr))) ++ ")") = ((splitOnChar ',' s).map Val.vStr).length
      rw [countQ_append, countQ_append, hq]
      have h1 : countQ "IN (" = 0 := rfl
      have h2 : countQ ")" = 0 := rfl
      omega
    · cases v with
      | vArrCons h t =>
        refine ⟨⟨jsonOpTemplate "_in" ((Val.vArrCons h t).arrElems),
          (Val.vArrCons h t).arrElems, Val.vArrCons h t⟩, rfl, ?_,
          by simp, by simp, by simp, by simp⟩
        show countQ ("IN (" ++ String.join (List.intersperse ", " (List.map (fun _ => "?") ((Val.vArrCons h t).arrElems))) ++ ")") = ((Val.vArrCons h t).arrElems).length
        rw [countQ_append, countQ_append, hq]
        have h1 : countQ "IN (" = 0 := rfl
        have h2 : countQ ")" = 0 := rfl
        omega
      | vArrNil =>
        exact ⟨⟨"IN ()", [], Val.vArrNil⟩, rfl, rfl, by simp, by simp, by simp, by simp⟩
      | vNull => simp [Val.isArr] at harr
      | vUndef => simp [Val.isArr] at harr
      | vStr s => simp [Val.isArr] at harr
      | vInt n => simp [Val.isArr] at harr
      | vObjNil => simp [Val.isArr] at harr
      | vObjCons k w t => simp [Val.isArr] at harr
  · rcases hin (Or.inr rfl) with ⟨s, rfl⟩ | harr
    · refine ⟨⟨jsonOpTemplate "_nin" ((splitOnChar ',' s).map Val.vStr),
        (splitOnChar ',' s).map Val.vStr, Val.vStr s⟩, rfl, ?_,
        by simp, by simp, by simp, by simp⟩
      show countQ ("NOT IN (" ++ String.join (List.intersperse ", " (List.map (fun _ => "?") ((splitOnChar ',' s).map Val.vStr))) ++ ")") = ((splitOnChar ',' s).map Val.vStr).length
      rw [countQ_append, countQ_append, hq]
      have h1 : countQ "NOT IN (" = 0 := rfl
      have h2 : countQ ")" = 0 := rfl
      omega
    · cases v with
      | vArrCons h t =>
        refine ⟨⟨jsonOpTemplate "_nin" ((Val.vArrCons h t).arrElems),
          (Val.vArrCons h t).arrElems, Val.vArrCons h t⟩, rfl, ?_,
          by simp, by simp, by simp, by simp⟩
        show countQ ("NOT IN (" ++ String.join (List.intersperse ", " (List.map (fun _ => "?") ((Val.vArrCons h t).arrElems))) ++ ")") = ((Val.vArrCons h t).arrElems).length
        rw [countQ_append, countQ_append, hq]
        have h1 : countQ "NOT IN (" = 0 := rfl
        have h2 : countQ ")" = 0 := rfl
        omega
      | vArrNil =>
        exact ⟨⟨"NOT IN ()", [], Val.vArrNil⟩, rfl, rfl, by simp, by simp, by simp, by simp⟩
      | vNull => simp [Val.isArr] at harr
      | vUndef => simp [Val.isArr] at harr
      | vStr s => simp [Val.isArr] at harr
      | vInt n => simp [Val.isArr] at harr
      | vObjNil => simp [Val.isArr] at harr
      | vObjCons k w t => simp [Val.isArr] at harr
  -- _empty / _nempty
  · exact ⟨⟨"IS NULL", [], v⟩, rfl, rfl, by simp, by simp, by simp, by simp⟩
  · exact ⟨⟨"IS NOT NULL", [], v⟩, rfl, rfl, by simp, by simp, by simp, by simp⟩
  -- _between / _nbetween
  · have hv := hbt (Or.inl rfl)
    cases v with
    | vArrNil =>
      refine ⟨⟨"BETWEEN ? AND ?", [Val.vInt 0, Val.vInt 0], Val.arr [Val.vInt 0]⟩,
        rfl, rfl, by simp, by simp, by simp, ?_⟩
      intro _ x y hxy
      simp [Val.arr] at hxy
    | vArrCons h t =>
      refine ⟨⟨"BETWEEN ? AND ?",
        [(betweenSetLow (h :: t.arrElems)).headD (.vInt 0),
         match (betweenSetLow (h :: t.arrElems)).get? 1 with
         | some y => if y.nullish then (betweenSetLow (h :: t.arrElems)).headD (.vInt 0) else y
         | none => (betweenSetLow (h :: t.arrElems)).headD (.vInt 0)],
        Val.arr (betweenSetLow (h :: t.arrElems))⟩,
        rfl, rfl, by simp, by simp, by simp, ?_⟩
      intro _ x y hxy
      simp only [Val.arr, Val.vArrCons.injEq] at hxy
      obtain ⟨h1, h2⟩ := hxy
      rw [h1, h2]
      rcases Bool.eq_false_or_eq_true x.nullish with hx | hx <;>
        simp [Val.arrElems, Val.arr, betweenSetLow, hx, List.get?]
    | vNull => simp [Val.isArr] at hv
    | vUndef => simp [Val.isArr] at hv
    | vStr s => simp [Val.isArr] at hv
    | vInt n => simp [Val.isArr] at hv
    | vObjNil => simp [Val.isArr] at hv
    | vObjCons k w t => simp [Val.isArr] at hv
  · have hv := hbt (Or.inr rfl)
    cases v with
    | vArrNil =>
      refine ⟨⟨"NOT BETWEEN ? AND ?", [Val.vInt 0, Val.vInt 0], Val.arr [Val.vInt 0]⟩,
        rfl, rfl, by simp, by simp, by simp, ?_⟩
      intro _ x y hxy
      simp [Val.arr] at hxy
    | vArrCons h t =>
      refine ⟨⟨"NOT BETWEEN ? AND ?",
        [(betweenSetLow (h :: t.arrElems)).headD (.vInt 0),
         match (betweenSetLow (h :: t.arrElems)).get? 1 with
         | some y => if y.nullish then (betweenSetLow (h :: t.arrElems)).headD (.vInt 0) else y
         | none => (betweenSetLow (h :: t.arrElems)).headD (.vInt 0)],
        Val.arr (betweenSetLow (h :: t.arrElems))⟩,
        rfl, rfl, by simp, by simp, by simp, ?_⟩
      intro _ x y hxy
      simp only [Val.arr, Val.vArrCons.injEq] at hxy
      obtain ⟨h1, h2⟩ := hxy
      rw [h1, h2]
      rcases Bool.eq_false_or_eq_true x.nullish with hx | hx <;>
        simp [Val.arrElems, Val.arr, betweenSetLow, hx, List.get?]
    | vNull => simp [Val.isArr] at hv
    | vUndef => simp [Val.isArr] at hv
    | vStr s => simp [Val.isArr] at hv
    | vInt n => simp [Val.isArr] at hv
    | vObjNil => simp [Val.isArr] at hv
    | vObjCons k w t => simp [Val.isArr] at hv

/-- C8 witness. -/
theorem C8_placeholder_count_matches_values_witness :
    ∃ r, getJsonOperatorAndValues "_between" (Val.arr [Val.vUndef, Val.vInt 5]) = .ok r ∧
      countQ r.operator = r.values.length ∧
      ("_between" = "_between" ∨ "_between" = "_nbetween" → r.values.length = 2) ∧
      ("_between" = "_empty" ∨ "_between" = "_nempty" → r.values.length = 0) ∧
      (("_between" = "_in" ∨ "_between" = "_nin") → ∀ s,
        Val.arr [Val.vUndef, Val.vInt 5] = Val.vStr s →
        r.values = (splitOnChar ',' s).map Val.vStr) ∧
      ("_between" = "_between" ∨ "_between" = "_nbetween" → ∀ x y,
        Val.arr [Val.vUndef, Val.vInt 5] = Val.arr [x, y] →
        r.values = [if x.nullish then Val.vInt 0 else x,
          if y.nullish then (if x.nullish then Val.vInt 0 else x) else y]) :=
  C8_placeholder_count_matches_values "_between" (Val.arr [Val.vUndef, Val.vInt 5])
    (by decide)
    (fun h => by rcases h with h | h <;> exact absurd h (by decide))
    (fun _ => by decide)

/-- C7 amended witness. -/
theorem C7_amended_frame_effect_witness :
    (⟨"BETWEEN ? AND ?", [Val.vInt 0, Val.vInt 5],
      Val.arr [Val.vInt 0, Val.vInt 5]⟩ : OpVals).post =
      Val.arr (if (Val.vUndef).nullish then Val.vInt 0 :: [Val.vInt 5]
               else Val.vUndef :: [Val.vInt 5]) :=
  (C7_amended_frame_effect "_between" (Val.arr [Val.vUndef, Val.vInt 5])
      ⟨"BETWEEN ? AND ?", [Val.vInt 0, Val.vInt 5], Val.arr [Val.vInt 0, Val.vInt 5]⟩).2
    Val.vUndef [Val.vInt 5] (Or.inl rfl) rfl rfl

/-! ## Concrete fixtures (the schema and filters of the repository's
json-query tests) -/

/-- The schema built by the json-query tests: collection `test` with an
integer `id`, string `name` and JSON `activities` field, no relations. -/
def testSchema : Schema :=
  Schema.mk [("test", CollectionInfo.mk "id"
    [("id", FieldInfo.mk "integer"), ("name", FieldInfo.mk "string"),
     ("activities", FieldInfo.mk "json")])] []

/-- No `_or` array is the permission-cases array. -/
def noCasesPred : Val → Bool := fun _ => false

/-- The filter of the test `filtering json query with _or combining multiple
_and conditions` (json-query.test.ts lines 248-332): two `_and` groups under
`_or`, each pair sharing base path `activities.beneficiaries`. -/
def orOfAndsFilter : Val := Val.obj [("_or", Val.arr [
  Val.obj [("_and", Val.arr [
    Val.obj [("activities", Val.obj [("beneficiaries", Val.obj [("type",
      Val.obj [("_eq", Val.vStr "type_1")])])])],
    Val.obj [("activities", Val.obj [("beneficiaries", Val.obj [("number",
      Val.obj [("_gte", Val.vInt 5)])])])]])],
  Val.obj [("_and", Val.arr [
    Val.obj [("activities", Val.obj [("beneficiaries", Val.obj [("type",
      Val.obj [("_eq", Val.vStr "type_2")])])])],
    Val.obj [("activities", Val.obj [("beneficiaries", Val.obj [("number",
      Val.obj [("_gte", Val.vInt 10)])])])]])]])]

/-- A filter referencing the JSON field `activities` twice: once directly and
once inside a nested `_and`. -/
def doubleRefFilter : Val := Val.obj [
  ("activities", Val.obj [("beneficiaries", Val.obj [("type",
    Val.obj [("_eq", Val.vStr "a")])])]),
  ("_and", Val.arr [Val.obj [("activities", Val.obj [("deliverables", Val.obj [("type",
    Val.obj [("_eq", Val.vStr "b")])])])]])]

/-- Two same-base-path conditions under an `_and` nested inside the JSON
field's value (handled by `handleJsonFieldWithAndOr`). -/
def nestedAndJsonFilter : Val := Val.obj [("activities", Val.obj [("_and", Val.arr [
  Val.obj [("deliverables", Val.obj [("type", Val.obj [("_eq", Val.vStr "type_1")])])],
  Val.obj [("deliverables", Val.obj [("number", Val.obj [("_gte", Val.vInt 2)])])]])])]

/-- The same two conditions as separate sub-filters of a top-level `_and`
(handled by `handleCombinedJsonConditionsInAnd`); the filter of the test
`filtering json query with combined conditions on same path using _and`. -/
def topAndJsonFilter : Val := Val.obj [("_and", Val.arr [
  Val.obj [("activities", Val.obj [("deliverables", Val.obj [("type",
    Val.obj [("_eq", Val.vStr "type_1")])])])],
  Val.obj [("activities", Val.obj [("deliverables", Val.obj [("number",
    Val.obj [("_gte", Val.vInt 2)])])])]])]

set_option maxRecDepth 4000000

/-- C2: the claim — and the repository's own test at json-query.test.ts lines
248-332 — expect each `_or` disjunct to compile into its own independent
EXISTS clause joined by OR, two merged EXISTS clauses in total with ten
bindings.  The code instead emits a single EXISTS containing only the first
branch's merged predicate: the second `_and` branch finds the alias key of
the shared row-source already registered, so it attaches no EXISTS to its own
group and appends its merged predicate to a builder whose SQL was already
rendered (both predicates are stored on the one builder, as the state shows,
but only the first is emitted and the second branch's bindings are lost). -/
theorem C2_or_branch_exists_lost :
    resultSql (applyFilter 9 testSchema "test" noCasesPred orOfAndsFilter) =
      some ("select * where ((exists (select * from json_array_elements(\"test\".\"activities\") " ++
        "as alias0 where exists (select 1 from jsonb_path_query((alias0)::jsonb, ?) " ++
        "as json_path_value(json_value) where (jsonb_extract_path_text(json_value, ?)::text = ?) " ++
        "AND (jsonb_extract_path_text(json_value, ?)::float >= ?)))))") ∧
    resultBinds (applyFilter 9 testSchema "test" noCasesPred orOfAndsFilter) =
      some [Val.vStr "$.beneficiaries[*]", Val.vStr "type", Val.vStr "type_1",
        Val.vStr "number", Val.vInt 5] ∧
    (resultState (applyFilter 9 testSchema "test" noCasesPred orOfAndsFilter)).map
        (fun st => st.builders.map fun b => b.wheres.length) = some [2] := by
  refine ⟨?_, ?_, ?_⟩ <;> decide

/-- C5: row-source creation is idempotent — a lookup hit in the `jsonQueries`
map returns the existing handle, unchanged state, and reports no creation (so
no second EXISTS wrapper is attached); and compiling a filter that references
the JSON field `activities` twice (once directly, once inside a nested
`_and`) allocates exactly one exploded row-source alias: one builder, one
generated alias, the compiled SQL contains a single
`exists (select * from json_array_elements(...))` wrapper, and both
references' predicates land on that same shared builder. -/
theorem C5_row_source_idempotent :
    (∀ (st : CState) (collection field : String) (id : Nat),
      lookupA st.jsonQueries (collection ++ "." ++ field) = some id →
      ensureJsonBuilder st collection field = (st, id, false)) ∧
    resultSql (applyFilter 9 testSchema "test" noCasesPred doubleRefFilter) =
      some ("select * where exists (select * from json_array_elements(\"test\".\"activities\") " ++
        "as alias0 where exists (select 1 from jsonb_path_query((alias0)::jsonb, ?) " ++
        "as json_path_value(json_value) where ((json_value #>> '\x7b\x7d'))::text = ?))") ∧
    (resultState (applyFilter 9 testSchema "test" noCasesPred doubleRefFilter)).map
        (fun st => (st.builders.length, st.nextAlias,
          st.builders.map fun b => b.wheres.length)) = some (1, 1, [2]) := by
  refine ⟨?_, by decide, by decide⟩
  intro st collection field id h
  simp [ensureJsonBuilder, h]

/-- C5 witness. -/
theorem C5_row_source_idempotent_witness :
    ensureJsonBuilder ⟨[⟨"test", "activities", "alias0", []⟩],
        [("test.activities", 0)], [], 1⟩ "test" "activities" =
      (⟨[⟨"test", "activities", "alias0", []⟩], [("test.activities", 0)], [], 1⟩, 0, false) :=
  C5_row_source_idempotent.1
    ⟨[⟨"test", "activities", "alias0", []⟩], [("test.activities", 0)], [], 1⟩
    "test" "activities" 0 (by decide)

/-- C10 counterexample: the two merge code paths do not bind the same
JSON-path string.  For the same two conditions on base path
`activities.deliverables`, the `_and` nested inside the JSON field's value
(`handleJsonFieldWithAndOr`) stores a merged clause binding
`$.deliverables` — `buildJsonPath` of the base path without the trailing
`[*]` — while the top-level `_and` (`handleCombinedJsonConditionsInAnd`)
binds `$.deliverables[*]`. -/
theorem C10_merged_paths_differ_counterexample :
    (resultState (applyFilter 9 testSchema "test" noCasesPred nestedAndJsonFilter)).map
        (fun st => st.builders.map fun b => b.wheres.map fun lc => lc.2.jsonPath) =
      some [["$.deliverables"]] ∧
    (resultState (applyFilter 9 testSchema "test" noCasesPred topAndJsonFilter)).map
        (fun st => st.builders.map fun b => b.wheres.map fun lc => lc.2.jsonPath) =
      some [["$.deliverables[*]"]] ∧
    ("$.deliverables" : String) ≠ buildJsonPath ["activities", "deliverables"] ++ "[*]" := by
  refine ⟨by decide, by decide, by decide⟩

/-! ## C4 and C9: relational `_none`/`_some` and `_or` short-circuits -/

theorem getFilterPath_head (k : String) (v : Val) :
    ∃ t, getFilterPath k v = k :: t := by
  cases v with
  | vObjCons ck cv rest =>
    unfold getFilterPath
    split
    · exact ⟨[], rfl⟩
    · exact ⟨getFilterPath ck cv, rfl⟩
  | vNull => exact ⟨[], rfl⟩
  | vUndef => exact ⟨[], rfl⟩
  | vStr s => exact ⟨[], rfl⟩
  | vInt n => exact ⟨[], rfl⟩
  | vArrNil => exact ⟨[], rfl⟩
  | vArrCons h t => exact ⟨[], rfl⟩
  | vObjNil => exact ⟨[], rfl⟩

theorem isArr_arr (l : List Val) : (Val.arr l).isArr = true := by
  cases l <;> rfl

theorem exceptBindPure {E A : Type} (e : Except E A) : e >>= pure = e := by
  cases e <;> rfl

theorem exceptBindOk {E A : Type} (e : Except E A) :
    (e >>= fun a => Except.ok a) = e := by
  cases e <;> rfl

/-- The schema for the relational scenarios: collection `test` (primary key
`id`) with a one-to-many alias field `children` backed by the relation
`children.parent → test`, the child collection carrying `age`. -/
def c4schema : Schema :=
  Schema.mk
    [("test", CollectionInfo.mk "id"
        [("id", FieldInfo.mk "integer"), ("children", FieldInfo.mk "alias")]),
     ("children", CollectionInfo.mk "id"
        [("id", FieldInfo.mk "integer"), ("age", FieldInfo.mk "integer"),
         ("parent", FieldInfo.mk "integer")])]
    [Relation.mk "children" "parent" (some "test") (some "children")]

/-- C4: a `_none` or `_some` below the first relation segment (not the
direct child of the top-level relational field) makes compilation raise
`InvalidQuery` — naming the offending operator — before emitting any SQL for
that condition, while `_none`/`_some` as the direct child of a top-level
one-to-many relational field compiles to a correlated NOT IN (resp. IN)
sub-query statement and does not raise. -/
theorem C4_none_some_relational_placement :
    (∀ (st : CState) (logical : Log) (v : Val) (op : String) (w : Val),
      getOperation "_none" v = some (op, w) →
      compileEntry c4schema "test" logical st "children"
        (Val.obj [("grandchildren", Val.obj [("_none", v)])]) =
        .error (Err.invalidQuery
          "\"_none\" can only be used with top level relational alias field")) ∧
    (∀ (st : CState) (logical : Log) (v : Val) (op : String) (w : Val),
      getOperation "_none" v = some (op, w) →
      compileEntry c4schema "test" logical st "children" (Val.obj [("_none", v)]) =
        .ok (st, [(logical, Stmt.whereInSub true "test.id" "children" "parent" v)])) ∧
    (∀ (st : CState) (logical : Log) (v : Val) (op : String) (w : Val),
      getOperation "_some" v = some (op, w) →
      (getFilterPath "_some" v).contains "_none" = false →
      compileEntry c4schema "test" logical st "children"
        (Val.obj [("grandchildren", Val.obj [("_some", v)])]) =
        .error (Err.invalidQuery
          "\"_some\" can only be used with top level relational alias field")) ∧
    (∀ (st : CState) (logical : Log) (v : Val) (op : String) (w : Val),
      getOperation "_some" v = some (op, w) →
      compileEntry c4schema "test" logical st "children" (Val.obj [("_some", v)]) =
        .ok (st, [(logical, Stmt.whereInSub false "test.id" "children" "parent" v)])) := by
  have hpr : (splitOnChar ':' "children").head?.getD "" = "children" := by decide
  refine ⟨?_, ?_, ?_, ?_⟩
  · intro st logical v op w h
    obtain ⟨t, ht⟩ := getFilterPath_head "_none" v
    have hop : getOperation "children"
        (Val.vObjCons "grandchildren" (Val.vObjCons "_none" v Val.vObjNil) Val.vObjNil) =
        some (op, w) := h
    have hfp : getFilterPath "children"
        (Val.vObjCons "grandchildren" (Val.vObjCons "_none" v Val.vObjNil) Val.vObjNil) =
        "children" :: "grandchildren" :: getFilterPath "_none" v := rfl
    simp [compileEntry, hop, hfp, ht, hpr, Val.obj, Val.objEntries, Val.isObject,
      Schema.fieldType, Schema.fieldInfo, Schema.collectionInfo, c4schema,
      lookupA, getRelationInfo, Except.bind, pure, Except.pure]
    rfl
  · intro st logical v op w h
    obtain ⟨t, ht⟩ := getFilterPath_head "_none" v
    have hop : getOperation "children"
        (Val.vObjCons "_none" v Val.vObjNil) = some (op, w) := h
    have hfp : getFilterPath "children" (Val.vObjCons "_none" v Val.vObjNil) =
        "children" :: getFilterPath "_none" v := rfl
    simp [compileEntry, hop, hfp, ht, hpr, Val.obj, Val.objEntries, Val.isObject,
      Schema.fieldType, Schema.fieldInfo, Schema.collectionInfo, c4schema,
      lookupA, getRelationInfo, Except.bind, pure, Except.pure]
  · intro st logical v op w h hnn
    obtain ⟨t, ht⟩ := getFilterPath_head "_some" v
    have hop : getOperation "children"
        (Val.vObjCons "grandchildren" (Val.vObjCons "_some" v Val.vObjNil) Val.vObjNil) =
        some (op, w) := h
    have hfp : getFilterPath "children"
        (Val.vObjCons "grandchildren" (Val.vObjCons "_some" v Val.vObjNil) Val.vObjNil) =
        "children" :: "grandchildren" :: getFilterPath "_some" v := rfl
    simp [compileEntry, hop, hfp, ht, hpr, hnn, Val.obj, Val.objEntries, Val.isObject,
      Schema.fieldType, Schema.fieldInfo, Schema.collectionInfo, c4schema,
      lookupA, getRelationInfo, Except.bind, pure, Except.pure]
    rw [ht] at hnn
    simp at hnn
    simp [hnn]
    rfl
  · intro st logical v op w h
    obtain ⟨t, ht⟩ := getFilterPath_head "_some" v
    have hop : getOperation "children"
        (Val.vObjCons "_some" v Val.vObjNil) = some (op, w) := h
    have hfp : getFilterPath "children" (Val.vObjCons "_some" v Val.vObjNil) =
        "children" :: getFilterPath "_some" v := rfl
    simp [compileEntry, hop, hfp, ht, hpr, Val.obj, Val.objEntries, Val.isObject,
      Schema.fieldType, Schema.fieldInfo, Schema.collectionInfo, c4schema,
      lookupA, getRelationInfo, Except.bind, pure, Except.pure]

/-- C4 witness: all four placements at concrete filters over the
`test`/`children` relation. -/
theorem C4_none_some_relational_placement_witness :
    compileEntry c4schema "test" Log.and CState.init "children"
      (Val.obj [("grandchildren", Val.obj [("_none",
        Val.obj [("age", Val.obj [("_gt", Val.vInt 3)])])])]) =
      .error (Err.invalidQuery
        "\"_none\" can only be used with top level relational alias field") ∧
    compileEntry c4schema "test" Log.and CState.init "children"
      (Val.obj [("_none", Val.obj [("age", Val.obj [("_gt", Val.vInt 3)])])]) =
      .ok (CState.init, [(Log.and, Stmt.whereInSub true "test.id" "children" "parent"
        (Val.obj [("age", Val.obj [("_gt", Val.vInt 3)])]))]) ∧
    compileEntry c4schema "test" Log.and CState.init "children"
      (Val.obj [("grandchildren", Val.obj [("_some",
        Val.obj [("age", Val.obj [("_gt", Val.vInt 3)])])])]) =
      .error (Err.invalidQuery
        "\"_some\" can only be used with top level relational alias field") ∧
    compileEntry c4schema "test" Log.and CState.init "children"
      (Val.obj [("_some", Val.obj [("age", Val.obj [("_gt", Val.vInt 3)])])]) =
      .ok (CState.init, [(Log.and, Stmt.whereInSub false "test.id" "children" "parent"
        (Val.obj [("age", Val.obj [("_gt", Val.vInt 3)])]))]) :=
  ⟨C4_none_some_relational_placement.1 CState.init Log.and
      (Val.obj [("age", Val.obj [("_gt", Val.vInt 3)])]) "_gt" (Val.vInt 3) (by decide),
   C4_none_some_relational_placement.2.1 CState.init Log.and
      (Val.obj [("age", Val.obj [("_gt", Val.vInt 3)])]) "_gt" (Val.vInt 3) (by decide),
   C4_none_some_relational_placement.2.2.1 CState.init Log.and
      (Val.obj [("age", Val.obj [("_gt", Val.vInt 3)])]) "_gt" (Val.vInt 3)
      (by decide) (by decide),
   C4_none_some_relational_placement.2.2.2 CState.init Log.and
      (Val.obj [("age", Val.obj [("_gt", Val.vInt 3)])]) "_gt" (Val.vInt 3) (by decide)⟩

/-- C9: an `_or` array containing an empty object makes the where-clause pass
emit nothing for the whole group (unconditionally), and the join-discovery
pass skip the group — except when the array is the permission-cases array
(`value === cases`, modelled by the `sameAsCases` predicate) with more than
one element, in which case only the empty branches are dropped and join
planning continues over the remaining branches. -/
theorem C9_or_with_empty_object_short_circuits :
    (∀ (schema : Schema) (collection : String) (logical : Log) (st : CState)
       (subs : List Val), subs.any Val.objKeysEmpty = true →
       compileEntry schema collection logical st "_or" (Val.arr subs) = .ok (st, [])) ∧
    (∀ (schema : Schema) (sac : Val → Bool) (collection : String) (fuel : Nat)
       (st : CState) (subs : List Val), subs.any Val.objKeysEmpty = true →
       (sac (Val.arr subs) = false ∨ subs.length = 1) →
       addJoins schema sac collection (fuel + 1) st
         (Val.obj [("_or", Val.arr subs)]) = .ok st) ∧
    (∀ (schema : Schema) (sac : Val → Bool) (collection : String) (fuel : Nat)
       (st : CState) (subs : List Val), subs.any Val.objKeysEmpty = true →
       sac (Val.arr subs) = true → subs.length ≠ 1 →
       addJoins schema sac collection (fuel + 1) st
         (Val.obj [("_or", Val.arr subs)]) =
       (subs.filter fun s => !s.objKeysEmpty).foldlM
         (fun st sf => addJoins schema sac collection fuel st sf) st) := by
  refine ⟨?_, ?_, ?_⟩
  · intro schema collection logical st subs hany
    simp [compileEntry, isArr_arr, arrElems_arr, hany]
    rfl
  · intro schema sac collection fuel st subs hany hcase
    have hany' : ∃ x ∈ subs, x.objKeysEmpty = true := by simpa using hany
    rcases hcase with hc | hc <;>
      simp [addJoins, Val.obj, Val.objEntries, isArr_arr, arrElems_arr, hany', hc,
        Except.bind, pure, Except.pure, exceptBindPure, exceptBindOk]
  · intro schema sac collection fuel st subs hany hsac hlen
    have hany' : ∃ x ∈ subs, x.objKeysEmpty = true := by simpa using hany
    simp [addJoins, Val.obj, Val.objEntries, isArr_arr, arrElems_arr, hany', hsac,
      hlen, Except.bind, pure, Except.pure, exceptBindPure, exceptBindOk]

/-- Witness for `C9_or_with_empty_object_short_circuits` at the concrete
sub-filter list `[{}, {name: {_eq: "x"}}]` (the first object empty). -/
theorem C9_or_with_empty_object_short_circuits_witness :
    compileEntry testSchema "test" Log.and CState.init "_or"
      (Val.arr [Val.vObjNil,
        Val.vObjCons "name" (Val.vObjCons "_eq" (Val.vStr "x") Val.vObjNil) Val.vObjNil]) =
      .ok (CState.init, []) ∧
    addJoins testSchema (fun _ => false) "test" 1 CState.init
      (Val.obj [("_or", Val.arr [Val.vObjNil,
        Val.vObjCons "name" (Val.vObjCons "_eq" (Val.vStr "x") Val.vObjNil) Val.vObjNil])]) =
      .ok CState.init ∧
    addJoins testSchema (fun _ => true) "test" 1 CState.init
      (Val.obj [("_or", Val.arr [Val.vObjNil,
        Val.vObjCons "name" (Val.vObjCons "_eq" (Val.vStr "x") Val.vObjNil) Val.vObjNil])]) =
      ([Val.vObjNil,
        Val.vObjCons "name" (Val.vObjCons "_eq" (Val.vStr "x") Val.vObjNil) Val.vObjNil].filter
          fun s => !s.objKeysEmpty).foldlM
        (fun st sf => addJoins testSchema (fun _ => true) "test" 0 st sf) CState.init :=
  ⟨C9_or_with_empty_object_short_circuits.1 testSchema "test" Log.and CState.init _ (by decide),
   C9_or_with_empty_object_short_circuits.2.1 testSchema (fun _ => false) "test" 0 CState.init _
     (by decide) (Or.inl rfl),
   C9_or_with_empty_object_short_circuits.2.2 testSchema (fun _ => true) "test" 0 CState.init _
     (by decide) rfl (by decide)⟩

/-! ## Symbolic condition filters

Constructors for filter objects of the shape
`{seg1: {seg2: ... {field: {op: value}}}}` used to reason about groups of
sibling JSON leaf conditions sharing a base path. -/

/-- Wrap an inner value in single-key objects along `path`. -/
def nestObj : List String → Val → Val
  | [], inner => inner
  | s :: rest, inner => Val.vObjCons s (nestObj rest inner) Val.vObjNil

/-- The leaf `{field: {op: value}}` of one condition. -/
def condLeaf (f op : String) (v : Val) : Val :=
  Val.vObjCons f (Val.vObjCons op v Val.vObjNil) Val.vObjNil

/-- A full single-condition filter: the condition `c = (field, op, value)`
nested under the path `path`. -/
def mkCondFilter (path : List String) (c : String × String × Val) : Val :=
  nestObj path (condLeaf c.1 c.2.1 c.2.2)

/-- A genuine comparison operator key: sigil-prefixed and none of the
combinators the parser treats specially. -/
def goodOp (op : String) : Prop :=
  sigil op = true ∧ op ≠ "_and" ∧ op ≠ "_or" ∧ op ≠ "_none" ∧ op ≠ "_some"

/-- A well-formed condition: plain field name, genuine operator, and a filter
value the operator mapper accepts. -/
def goodCond (c : String × String × Val) : Prop :=
  sigil c.1 = false ∧ goodOp c.2.1 ∧ ∃ r, jsonOpValues c.2.1 c.2.2 = .ok r

/-- The bound values the mapper produces for a condition. -/
def condValues (c : String × String × Val) : List Val :=
  match jsonOpValues c.2.1 c.2.2 with
  | .ok (vals, _) => vals
  | .error _ => []

/-- The `JCond` the collection passes collect for a condition rooted at
`rootF` with base path `bp`. -/
def toJC (rootF : String) (bp : List String) (c : String × String × Val) : JCond :=
  { field := c.1, path := rootF :: (bp ++ [c.1]), operator := c.2.1, value := c.2.2 }

/-- The per-condition conjunct of a merged predicate. -/
def expectedPiece (c : String × String × Val) : String :=
  "(jsonb_extract_path_text(json_value, ?)::" ++ castOf c.2.2 ++ " " ++
    jsonOpTemplate c.2.1 (condValues c) ++ ")"

/-- The merged EXISTS clause a group of conditions compiles to. -/
def mergedOf (jsonPath : String) (conds : List (String × String × Val)) : JsonClause :=
  { jsonPath := jsonPath,
    whereSql := String.intercalate " AND " (conds.map expectedPiece),
    whereBinds := (conds.map fun c => Val.vStr c.1 :: condValues c).flatten }

/-- A one-collection schema whose only declared field `rootF` is JSON-typed. -/
def jsonSchema (coll rootF : String) : Schema :=
  ⟨[(coll, ⟨"id", [(rootF, ⟨"json"⟩)]⟩)], []⟩

theorem getFilterPath_nest (k : String) (bp : List String) (f op : String) (v : Val)
    (hbp : ∀ s ∈ bp, sigil s = false) (hf : sigil f = false) (hgo : goodOp op) :
    getFilterPath k (nestObj bp (condLeaf f op v)) = k :: (bp ++ [f]) := by
  induction bp generalizing k with
  | nil =>
    obtain ⟨h1, _, _, h4, h5⟩ := hgo
    simp [nestObj, condLeaf, getFilterPath, hf, h1, h4, h5]
  | cons s rest ih =>
    have hs : sigil s = false := hbp s (List.mem_cons_self s rest)
    simp only [nestObj, getFilterPath, hs]
    rw [ih s (fun x hx => hbp x (List.mem_cons_of_mem s hx))]
    simp

theorem getOperation_nest (k : String) (bp : List String) (f op : String) (v : Val)
    (hk : sigil k = false) (hbp : ∀ s ∈ bp, sigil s = false) (hf : sigil f = false)
    (hgo : goodOp op) :
    getOperation k (nestObj bp (condLeaf f op v)) = some (op, v) := by
  induction bp generalizing k with
  | nil =>
    obtain ⟨h1, h2, h3, h4, h5⟩ := hgo
    have hcond : (sigil op && op ≠ "_and" && op ≠ "_or" && op ≠ "_none" &&
        op ≠ "_some") = true := by
      simp [h1, h2, h3, h4, h5]
    have hop : getOperation op v = some (op, v) := by
      rw [getOperation.eq_def]
      simp only [hcond, if_true]
    simp [nestObj, condLeaf, getOperation, hk, hf, hop]
  | cons s rest ih =>
    have hs : sigil s = false := hbp s (List.mem_cons_self s rest)
    simp only [nestObj, getOperation, hk]
    simp only [Bool.false_and, Bool.false_eq_true, if_false]
    exact ih s hs (fun x hx => hbp x (List.mem_cons_of_mem s hx))

theorem mapPush_fold_acc {α : Type} (key : String) (xs : List α) (l : List α) :
    l.foldl (fun m a => mapPush m key a) [(key, xs)] = [(key, xs ++ l)] := by
  induction l generalizing xs with
  | nil => simp
  | cons a t ih =>
    have h1 : mapPush [(key, xs)] key a = [(key, xs ++ [a])] := by simp [mapPush]
    rw [List.foldl_cons, h1, ih]
    simp

theorem mapPush_fold_from_nil {α : Type} (key : String) (l : List α) (hl : l ≠ []) :
    l.foldl (fun m a => mapPush m key a) [] = [(key, l)] := by
  cases l with
  | nil => exact absurd rfl hl
  | cons a t =>
    simp only [List.foldl_cons, mapPush]
    rw [mapPush_fold_acc]
    simp

theorem foldlM_of_skip {E A B : Type} (f : A → B → Except E A) (l : List B) (a : A)
    (h : ∀ a' : A, ∀ x ∈ l, f a' x = pure a') :
    l.foldlM f a = pure a := by
  induction l generalizing a with
  | nil => rfl
  | cons x t ih =>
    rw [List.foldlM_cons, h a x (List.mem_cons_self x t)]
    rw [pure_bind]
    exact ih a (fun a' y hy => h a' y (List.mem_cons_of_mem x hy))

theorem nestObj_isObject (bp : List String) (f op : String) (v : Val) :
    (nestObj bp (condLeaf f op v)).isObject = true := by
  cases bp <;> rfl

theorem mkCondFilter_entries (s : String) (rest : List String)
    (c : String × String × Val) :
    (mkCondFilter (s :: rest) c).objEntries =
      [(s, nestObj rest (condLeaf c.1 c.2.1 c.2.2))] := rfl

theorem jsonSchema_fieldType (coll rootF : String) :
    (jsonSchema coll rootF).fieldType coll rootF = some "json" := by
  simp [jsonSchema, Schema.fieldType, Schema.fieldInfo, Schema.collectionInfo, lookupA]

theorem dropLast_cons_concat (x : String) (l : List String) (y : String) :
    (x :: (l ++ [y])).dropLast = x :: l := by
  rw [← List.cons_append, List.dropLast_concat]

theorem getLastD_cons_concat (x : String) (l : List String) (y : String) :
    (x :: (l ++ [y])).getLastD "" = y := by
  rw [← List.cons_append, List.getLastD_concat]

theorem collectJsonCondition_cond (coll rootF : String) (bp : List String)
    (c : String × String × Val) (m : List (String × List JCond))
    (hbp : ∀ s ∈ bp, sigil s = false) (hc : goodCond c) :
    collectJsonCondition (jsonSchema coll rootF) coll m
      (rootF, nestObj bp (condLeaf c.1 c.2.1 c.2.2)) =
    mapPush m (rootF ++ "." ++ String.intercalate "." bp) (toJC rootF bp c) := by
  obtain ⟨hf, hgo, _⟩ := hc
  have hpath := getFilterPath_nest rootF bp c.1 c.2.1 c.2.2 hbp hf hgo
  have hiso := nestObj_isObject bp c.1 c.2.1 c.2.2
  have hft := jsonSchema_fieldType coll rootF
  rw [collectJsonCondition]
  rw [if_pos ⟨hft, hiso⟩]
  rw [hpath]
  rw [if_pos (by simp)]
  have hop : getOperation (((rootF :: (bp ++ [c.1])).get? 1).getD "")
      (firstValD (nestObj bp (condLeaf c.1 c.2.1 c.2.2))) = some (c.2.1, c.2.2) := by
    cases bp with
    | nil =>
      obtain ⟨h1, h2, h3, h4, h5⟩ := hgo
      have hcond : (sigil c.2.1 && c.2.1 ≠ "_and" && c.2.1 ≠ "_or" &&
          c.2.1 ≠ "_none" && c.2.1 ≠ "_some") = true := by
        simp [h1, h2, h3, h4, h5]
      simp only [nestObj, condLeaf, firstValD, Val.objEntries, List.head?,
        List.nil_append, List.get?, Option.getD]
      rw [getOperation.eq_def]
      simp only [hf, Bool.false_and, Bool.false_eq_true, if_false]
      rw [getOperation.eq_def]
      simp only [hcond, if_true]
    | cons s rest =>
      have hs : sigil s = false := hbp s (List.mem_cons_self s rest)
      have hrest : ∀ x ∈ rest, sigil x = false :=
        fun x hx => hbp x (List.mem_cons_of_mem s hx)
      simp only [nestObj, firstValD, Val.objEntries, List.head?,
        List.cons_append, List.get?, Option.getD]
      exact getOperation_nest s rest c.1 c.2.1 c.2.2 hs hrest hf hgo
  rw [hop]
  simp only [List.drop_succ_cons, List.drop_zero]
  rw [dropLast_cons_concat, getLastD_cons_concat]
  simp [toJC]

theorem collect_fold_general (coll rootF : String) (bp : List String)
    (conds : List (String × String × Val)) (m : List (String × List JCond))
    (hbp : ∀ s ∈ bp, sigil s = false) (hcs : ∀ c ∈ conds, goodCond c) :
    (conds.map fun c => mkCondFilter (rootF :: bp) c).foldl
      (fun m subFilter => (subFilter.objEntries).foldl
        (collectJsonCondition (jsonSchema coll rootF) coll) m) m =
    conds.foldl (fun m c => mapPush m (rootF ++ "." ++ String.intercalate "." bp)
      (toJC rootF bp c)) m := by
  induction conds generalizing m with
  | nil => rfl
  | cons c cs ih =>
    simp only [List.map_cons, List.foldl_cons, mkCondFilter_entries]
    rw [List.foldl_nil,
      collectJsonCondition_cond coll rootF bp c m hbp (hcs c (List.mem_cons_self c cs))]
    exact ih _ (fun x hx => hcs x (List.mem_cons_of_mem c hx))

theorem collectJsonConditions_closed (coll rootF : String) (bp : List String)
    (conds : List (String × String × Val))
    (hbp : ∀ s ∈ bp, sigil s = false) (hcs : ∀ c ∈ conds, goodCond c)
    (hne : conds ≠ []) :
    collectJsonConditions (jsonSchema coll rootF) coll
      (conds.map fun c => mkCondFilter (rootF :: bp) c) =
    [(rootF ++ "." ++ String.intercalate "." bp, conds.map (toJC rootF bp))] := by
  rw [collectJsonConditions, collect_fold_general coll rootF bp conds [] hbp hcs]
  rw [← List.foldl_map (toJC rootF bp)
    (fun m a => mapPush m (rootF ++ "." ++ String.intercalate "." bp) a)]
  exact mapPush_fold_from_nil _ _ (by simpa using hne)

theorem exceptOkBind {E A B : Type} (a : A) (f : A → Except E B) :
    (Except.ok a >>= f : Except E B) = f a := rfl

theorem mergedPiece_toJC (rootF : String) (bp : List String)
    (c : String × String × Val) (hc : ∃ r, jsonOpValues c.2.1 c.2.2 = .ok r) :
    mergedPiece (toJC rootF bp c) =
      .ok (expectedPiece c, Val.vStr c.1 :: condValues c) := by
  obtain ⟨⟨vals, post⟩, hr⟩ := hc
  have hcv : condValues c = vals := by simp [condValues, hr]
  simp only [mergedPiece, toJC, getJsonOperatorAndValues, hr, exceptOkBind,
    expectedPiece, hcv]
  rfl

theorem mergedPieces_mapM (rootF : String) (bp : List String)
    (conds : List (String × String × Val))
    (hcs : ∀ c ∈ conds, ∃ r, jsonOpValues c.2.1 c.2.2 = .ok r) :
    (conds.map (toJC rootF bp)).mapM mergedPiece =
      .ok (conds.map fun c => (expectedPiece c, Val.vStr c.1 :: condValues c)) := by
  induction conds with
  | nil => rfl
  | cons c cs ih =>
    simp only [List.map_cons, List.mapM_cons]
    rw [mergedPiece_toJC rootF bp c (hcs c (List.mem_cons_self c cs))]
    rw [ih (fun x hx => hcs x (List.mem_cons_of_mem c hx))]
    rfl

theorem mergedClause_uniform (jsonPath rootF : String) (bp : List String)
    (conds : List (String × String × Val))
    (hcs : ∀ c ∈ conds, ∃ r, jsonOpValues c.2.1 c.2.2 = .ok r) :
    mergedClause jsonPath (conds.map (toJC rootF bp)) =
      .ok (mergedOf jsonPath conds) := by
  rw [mergedClause, mergedPieces_mapM rootF bp conds hcs]
  simp only [exceptOkBind, mergedOf, List.map_map]
  simp only [Function.comp_def]
  rfl

theorem set_concat_length {α : Type} (l : List α) (a b : α) :
    (l ++ [a]).set l.length b = l ++ [b] := by
  induction l with
  | nil => rfl
  | cons x t ih => simp [List.set, ih]

theorem exceptFoldlM_singleton {E A B : Type} (f : A → B → Except E A)
    (b : A) (x : B) : List.foldlM f b [x] = f b x :=
  exceptBindPure (f b x)

theorem handleCombined_uniform (coll rootF : String) (bp : List String)
    (conds : List (String × String × Val)) (st : CState)
    (hbp : ∀ s ∈ bp, sigil s = false) (hcs : ∀ c ∈ conds, goodCond c)
    (hlen : 1 < conds.length) (hroot : rootF ≠ "")
    (hsplit : splitOnChar '.' (rootF ++ "." ++ String.intercalate "." bp) =
      rootF :: bp)
    (hq : lookupA st.jsonQueries (coll ++ "." ++ rootF) = none) :
    handleCombinedJsonConditionsInAnd (jsonSchema coll rootF) coll
      (conds.map fun c => mkCondFilter (rootF :: bp) c) st =
    .ok
      ({ st with
          builders := st.builders ++
            [⟨coll, rootF, genAlias st.nextAlias,
              [(Log.and, mergedOf (buildJsonPath (rootF :: bp) ++ "[*]") conds)]⟩],
          jsonQueries := st.jsonQueries ++ [(coll ++ "." ++ rootF, st.builders.length)],
          nextAlias := st.nextAlias + 1 },
       [(Log.and, Stmt.existsRef st.builders.length)],
       [(rootF ++ "." ++ String.intercalate "." bp, conds.map (toJC rootF bp))]) := by
  have hne : conds ≠ [] := by
    intro h; rw [h] at hlen; simp at hlen
  rw [handleCombinedJsonConditionsInAnd,
    collectJsonConditions_closed coll rootF bp conds hbp hcs hne]
  rw [exceptFoldlM_singleton]
  have hlen2 : 1 < (conds.map (toJC rootF bp)).length := by
    simpa using hlen
  have hens : ensureJsonBuilder st coll rootF =
      ({ st with
          builders := st.builders ++ [⟨coll, rootF, genAlias st.nextAlias, []⟩],
          jsonQueries := st.jsonQueries ++ [(coll ++ "." ++ rootF, st.builders.length)],
          nextAlias := st.nextAlias + 1 },
       st.builders.length, true) := by
    simp [ensureJsonBuilder, hq]
  have hmc := mergedClause_uniform (buildJsonPath (rootF :: bp) ++ "[*]") rootF bp
    conds (fun c hc => (hcs c hc).2.2)
  have hpush : pushClause
      ({ st with
          builders := st.builders ++ [⟨coll, rootF, genAlias st.nextAlias, []⟩],
          jsonQueries := st.jsonQueries ++ [(coll ++ "." ++ rootF, st.builders.length)],
          nextAlias := st.nextAlias + 1 } : CState)
      st.builders.length
      (Log.and, mergedOf (buildJsonPath (rootF :: bp) ++ "[*]") conds) =
      { st with
          builders := st.builders ++
            [⟨coll, rootF, genAlias st.nextAlias,
              [(Log.and, mergedOf (buildJsonPath (rootF :: bp) ++ "[*]") conds)]⟩],
          jsonQueries := st.jsonQueries ++ [(coll ++ "." ++ rootF, st.builders.length)],
          nextAlias := st.nextAlias + 1 } := by
    simp [pushClause, List.get?_concat_length, set_concat_length]
  simp only [gt_iff_lt, hlen2, if_true, hsplit, hroot, hens, hmc, exceptOkBind,
    hpush, List.nil_append, List.append_nil]
  rfl

theorem shouldSkipSub_cond (coll rootF : String) (bp : List String)
    (c : String × String × Val) (jcs : List JCond)
    (hbp : ∀ s ∈ bp, sigil s = false) (hc : goodCond c)
    (hlen : 1 < jcs.length) :
    shouldSkipSub (jsonSchema coll rootF) coll
      [(rootF ++ "." ++ String.intercalate "." bp, jcs)]
      (mkCondFilter (rootF :: bp) c) = true := by
  obtain ⟨hf, hgo, _⟩ := hc
  have hpath := getFilterPath_nest rootF bp c.1 c.2.1 c.2.2 hbp hf hgo
  rw [shouldSkipSub, mkCondFilter_entries]
  simp only [List.any_cons, List.any_nil, Bool.or_false]
  rw [hpath]
  simp only [List.drop_succ_cons, List.drop_zero, dropLast_cons_concat]
  · simp only [jsonSchema_fieldType coll rootF, lookupA, if_pos rfl]
    simp [hlen, dropLast_cons_concat]

theorem addJoins_condFilter (schema : Schema) (sac : Val → Bool) (coll : String)
    (fuel : Nat) (st : CState) (rootF : String) (bp : List String)
    (c : String × String × Val)
    (hroot : sigil rootF = false) (hbp : ∀ s ∈ bp, sigil s = false)
    (hc : goodCond c) :
    addJoins schema sac coll (fuel + 1) st (mkCondFilter (rootF :: bp) c) =
    .ok { st with joins := st.joins ++ [rootF :: (bp ++ [c.1])] } := by
  obtain ⟨hf, hgo, _⟩ := hc
  have h1 : rootF ≠ "_or" := by
    intro h; rw [h] at hroot; exact absurd hroot (by decide)
  have h2 : rootF ≠ "_and" := by
    intro h; rw [h] at hroot; exact absurd hroot (by decide)
  have hpath := getFilterPath_nest rootF bp c.1 c.2.1 c.2.2 hbp hf hgo
  rw [addJoins, mkCondFilter_entries, exceptFoldlM_singleton]
  simp only [h1, h2, or_self, if_false, hpath]
  rw [if_pos (Or.inl (by simp))]
  rfl

theorem addJoins_condList (schema : Schema) (sac : Val → Bool) (coll : String)
    (fuel : Nat) (st : CState) (rootF : String) (bp : List String)
    (conds : List (String × String × Val))
    (hroot : sigil rootF = false) (hbp : ∀ s ∈ bp, sigil s = false)
    (hcs : ∀ c ∈ conds, goodCond c) :
    (conds.map fun c => mkCondFilter (rootF :: bp) c).foldlM
      (fun st sf => addJoins schema sac coll (fuel + 1) st sf) st =
    .ok { st with joins := st.joins ++ conds.map fun c => rootF :: (bp ++ [c.1]) } := by
  induction conds generalizing st with
  | nil => simp; rfl
  | cons c cs ih =>
    simp only [List.map_cons, List.foldlM_cons]
    rw [addJoins_condFilter schema sac coll fuel st rootF bp c hroot hbp
      (hcs c (List.mem_cons_self c cs))]
    rw [exceptOkBind]
    rw [ih _ (fun x hx => hcs x (List.mem_cons_of_mem c hx))]
    simp

theorem addJoins_topAnd (schema : Schema) (sac : Val → Bool) (coll : String)
    (fuel : Nat) (st : CState) (rootF : String) (bp : List String)
    (conds : List (String × String × Val))
    (hroot : sigil rootF = false) (hbp : ∀ s ∈ bp, sigil s = false)
    (hcs : ∀ c ∈ conds, goodCond c) :
    addJoins schema sac coll (fuel + 2) st
      (Val.obj [("_and", Val.arr (conds.map fun c => mkCondFilter (rootF :: bp) c))]) =
    .ok { st with joins := st.joins ++ conds.map fun c => rootF :: (bp ++ [c.1]) } := by
  rw [addJoins]
  have hentries : (Val.obj [("_and", Val.arr (conds.map fun c =>
      mkCondFilter (rootF :: bp) c))]).objEntries =
      [("_and", Val.arr (conds.map fun c => mkCondFilter (rootF :: bp) c))] := rfl
  rw [hentries, exceptFoldlM_singleton]
  simp only [isArr_arr, arrElems_arr, Bool.not_true, Bool.false_eq_true, if_false]
  rw [if_pos (show ("_and" : String) = "_or" ∨ True from Or.inr trivial)]
  have hno : ¬("_and" = "_or" ∧ ((conds.map fun c => mkCondFilter (rootF :: bp) c).any
      Val.objKeysEmpty) = true) := fun h => by simp at h
  rw [if_neg hno]
  exact addJoins_condList schema sac coll fuel st rootF bp conds hroot hbp hcs

theorem compileFilter_topAnd (schema : Schema) (coll : String) (st : CState)
    (subs : List Val) :
    compileFilter schema coll Log.and st (Val.obj [("_and", Val.arr subs)]) =
    .ok (st, [(Log.and, Stmt.grpAnd subs)]) := by
  rw [compileFilter]
  have hentries : (Val.obj [("_and", Val.arr subs)]).objEntries =
      [("_and", Val.arr subs)] := rfl
  rw [hentries, exceptFoldlM_singleton, compileEntry]
  rw [if_pos (show ("_and" : String) = "_or" ∨ ("_and" : String) = "_and" from
    Or.inr rfl)]
  simp only [isArr_arr, arrElems_arr, Bool.not_true, Bool.false_eq_true, if_false]
  have hno : ¬("_and" = "_or" ∧ (subs.any Val.objKeysEmpty) = true) :=
    fun h => by simp at h
  rw [if_neg hno]
  simp only [if_true]
  rfl

theorem ne_empty_append (a b : String) (ha : a ≠ "") : a ++ b ≠ "" := by
  intro h
  apply ha
  have hd := congrArg String.data h
  rw [String.data_append a b] at hd
  exact String.ext ((List.append_eq_nil.mp hd).1.trans rfl)

theorem isEmpty_false_of_ne (s : String) (h : s ≠ "") : s.isEmpty = false := by
  cases he : s.isEmpty
  · rfl
  · exact absurd ((String.isEmpty_iff s).mp he) h

theorem joinKept_singleton (l : Log) (s : String) (b : List Val)
    (h : s ≠ "") :
    joinKept [(l, s, b)] = (s, b) := by
  rw [joinKept]
  simp [isEmpty_false_of_ne s h, String.join]

theorem renderStmts_nil (schema : Schema) (coll : String) (fuel : Nat)
    (st : CState) :
    renderStmts schema coll (fuel + 1) st [] = .ok (st, []) := rfl

theorem renderStmts_existsRef (schema : Schema) (coll : String) (fuel : Nat)
    (st : CState) (id : Nat) (b : JsonBuilder)
    (hb : st.builders.get? id = some b) :
    renderStmts schema coll (fuel + 2) st [(Log.and, Stmt.existsRef id)] =
    .ok (st, [(Log.and, "exists (" ++ (renderJsonBuilder b).1 ++ ")",
      (renderJsonBuilder b).2)]) := by
  have hne : "exists (" ++ (renderJsonBuilder b).1 ++ ")" ≠ "" :=
    ne_empty_append _ _ (ne_empty_append _ _ (by decide))
  rw [renderStmts]
  simp only [hb]
  simp only [pure_bind]
  rw [renderStmts_nil]
  simp only [exceptOkBind]
  simp only [if_neg hne, List.append_nil]
  rfl

theorem joinKept_singletonP (l : Log) (p : String × List Val) (h : p.1 ≠ "") :
    joinKept [(l, p)] = p := by
  rw [joinKept]
  simp [isEmpty_false_of_ne p.1 h, String.join]

theorem renderJsonBuilder_merged (coll rootF aliasName : String) (mc : JsonClause) :
    renderJsonBuilder ⟨coll, rootF, aliasName, [(Log.and, mc)]⟩ =
    ("select * from json_array_elements(" ++ quoteId coll ++ "." ++ quoteId rootF ++
       ") as " ++ aliasName ++ " where " ++
       ("exists (select 1 from jsonb_path_query((" ++ aliasName ++
        ")::jsonb, ?) as json_path_value(json_value) where " ++ mc.whereSql ++ ")"),
     Val.vStr mc.jsonPath :: mc.whereBinds) := by
  have hcl : ("exists (select 1 from jsonb_path_query((" ++ aliasName ++
      ")::jsonb, ?) as json_path_value(json_value) where " ++ mc.whereSql ++ ")") ≠ "" :=
    ne_empty_append _ _ (ne_empty_append _ _ (ne_empty_append _ _
      (ne_empty_append "exists (select 1 from jsonb_path_query((" aliasName
        (by decide))))
  rw [renderJsonBuilder]
  simp only [List.map_cons, List.map_nil, renderJsonClause]
  rw [joinKept_singletonP Log.and _ hcl]
  rw [if_neg hcl]
  simp [String.append_assoc]

theorem renderStmts_nil2 (schema : Schema) (coll : String) (fuel : Nat)
    (st : CState) :
    renderStmts schema coll (fuel + 2) st [] = .ok (st, []) := rfl

theorem renderStmts_grpAnd_merged (coll rootF : String) (bp : List String)
    (conds : List (String × String × Val)) (fuel : Nat) (st : CState)
    (hroot : sigil rootF = false) (hrne : rootF ≠ "")
    (hbp : ∀ s ∈ bp, sigil s = false)
    (hcs : ∀ c ∈ conds, goodCond c) (hlen : 1 < conds.length)
    (hsplit : splitOnChar '.' (rootF ++ "." ++ String.intercalate "." bp) =
      rootF :: bp)
    (hq : lookupA st.jsonQueries (coll ++ "." ++ rootF) = none) :
    renderStmts (jsonSchema coll rootF) coll (fuel + 3) st
      [(Log.and, Stmt.grpAnd (conds.map fun c => mkCondFilter (rootF :: bp) c))] =
    .ok
      ({ st with
          builders := st.builders ++
            [⟨coll, rootF, genAlias st.nextAlias,
              [(Log.and, mergedOf (buildJsonPath (rootF :: bp) ++ "[*]") conds)]⟩],
          jsonQueries := st.jsonQueries ++ [(coll ++ "." ++ rootF, st.builders.length)],
          nextAlias := st.nextAlias + 1 },
       [(Log.and,
         "(" ++ ("exists (" ++
           ("select * from json_array_elements(" ++ quoteId coll ++ "." ++
             quoteId rootF ++ ") as " ++ genAlias st.nextAlias ++ " where " ++
             ("exists (select 1 from jsonb_path_query((" ++ genAlias st.nextAlias ++
              ")::jsonb, ?) as json_path_value(json_value) where " ++
              String.intercalate " AND " (conds.map expectedPiece) ++ ")")) ++ ")") ++ ")",
         Val.vStr (buildJsonPath (rootF :: bp) ++ "[*]") ::
           (conds.map fun c => Val.vStr c.1 :: condValues c).flatten)]) := by
  rw [renderStmts]
  simp only [handleCombined_uniform coll rootF bp conds st hbp hcs hlen hrne
    hsplit hq, exceptOkBind]
  rw [foldlM_of_skip]
  · simp only [pure_bind, List.append_nil]
    rw [renderStmts_existsRef (jsonSchema coll rootF) coll fuel _
      (CState.builders st).length
      ⟨coll, rootF, genAlias st.nextAlias,
        [(Log.and, mergedOf (buildJsonPath (rootF :: bp) ++ "[*]") conds)]⟩
      (by simp [List.get?_concat_length])]
    simp only [exceptOkBind]
    simp only [renderJsonBuilder_merged]
    have hex : ("exists (" ++
        ("select * from json_array_elements(" ++ quoteId coll ++ "." ++
          quoteId rootF ++ ") as " ++ genAlias st.nextAlias ++ " where " ++
          ("exists (select 1 from jsonb_path_query((" ++ genAlias st.nextAlias ++
           ")::jsonb, ?) as json_path_value(json_value) where " ++
           (mergedOf (buildJsonPath (rootF :: bp) ++ "[*]") conds).whereSql ++ ")")) ++
        ")") ≠ "" :=
      ne_empty_append _ _ (ne_empty_append _ _ (by decide))
    rw [joinKept_singleton Log.and _ _ hex]
    rw [if_neg hex]
    simp only [pure_bind, renderStmts_nil2, exceptOkBind]
    have hpar : ("(" ++ ("exists (" ++
        ("select * from json_array_elements(" ++ quoteId coll ++ "." ++
          quoteId rootF ++ ") as " ++ genAlias st.nextAlias ++ " where " ++
          ("exists (select 1 from jsonb_path_query((" ++ genAlias st.nextAlias ++
           ")::jsonb, ?) as json_path_value(json_value) where " ++
           (mergedOf (buildJsonPath (rootF :: bp) ++ "[*]") conds).whereSql ++ ")")) ++
        ")") ++ ")") ≠ "" :=
      ne_empty_append _ _ (ne_empty_append _ _ (by decide))
    rw [if_neg hpar]
    simp only [mergedOf, List.append_nil]
    rfl

  · intro a' x hx
    obtain ⟨c, hc, rfl⟩ := List.mem_map.mp hx
    have hskip := shouldSkipSub_cond coll rootF bp c (conds.map (toJC rootF bp))
      hbp (hcs c hc) (by simpa using hlen)
    simp [hskip]

theorem addJoins_topAnd3 (schema : Schema) (sac : Val → Bool) (coll : String)
    (fuel : Nat) (st : CState) (rootF : String) (bp : List String)
    (conds : List (String × String × Val))
    (hroot : sigil rootF = false) (hbp : ∀ s ∈ bp, sigil s = false)
    (hcs : ∀ c ∈ conds, goodCond c) :
    addJoins schema sac coll (fuel + 3) st
      (Val.obj [("_and", Val.arr (conds.map fun c => mkCondFilter (rootF :: bp) c))]) =
    .ok { st with joins := st.joins ++ conds.map fun c => rootF :: (bp ++ [c.1]) } :=
  addJoins_topAnd schema sac coll (fuel + 1) st rootF bp conds hroot hbp hcs

/-- C1: a group of two or more leaf conditions under one `_and`, all on the
same JSON root field `rootF` and sharing the base path `bp`, compiles to
exactly one correlated EXISTS over the shared base path — the final state
holds a single row-source builder with a single merged predicate — whose
WHERE is the `AND` of one `jsonb_extract_path_text(json_value, ?)::cast op`
conjunct per condition, and whose bindings are the base JSON path
(`buildJsonPath` of the base path with `[*]` appended) followed by
`field₁, values₁, field₂, values₂, …` in condition order; never one EXISTS
per condition. -/
theorem C1_and_group_single_merged_exists
    (coll rootF : String) (bp : List String)
    (conds : List (String × String × Val)) (sac : Val → Bool) (fuel : Nat)
    (hroot : sigil rootF = false) (hrne : rootF ≠ "")
    (hbp : ∀ s ∈ bp, sigil s = false)
    (hcs : ∀ c ∈ conds, goodCond c) (hlen : 1 < conds.length)
    (hsplit : splitOnChar '.' (rootF ++ "." ++ String.intercalate "." bp) =
      rootF :: bp) :
    applyFilter (fuel + 3) (jsonSchema coll rootF) coll sac
      (Val.obj [("_and", Val.arr (conds.map fun c => mkCondFilter (rootF :: bp) c))]) =
    .ok
      (⟨[⟨coll, rootF, genAlias 0,
           [(Log.and, mergedOf (buildJsonPath (rootF :: bp) ++ "[*]") conds)]⟩],
        [(coll ++ "." ++ rootF, 0)],
        conds.map fun c => rootF :: (bp ++ [c.1]),
        1⟩,
       "select * where " ++
         ("(" ++ ("exists (" ++
           ("select * from json_array_elements(" ++ quoteId coll ++ "." ++
             quoteId rootF ++ ") as " ++ genAlias 0 ++ " where " ++
             ("exists (select 1 from jsonb_path_query((" ++ genAlias 0 ++
              ")::jsonb, ?) as json_path_value(json_value) where " ++
              String.intercalate " AND " (conds.map expectedPiece) ++ ")")) ++ ")") ++
          ")"),
       Val.vStr (buildJsonPath (rootF :: bp) ++ "[*]") ::
         (conds.map fun c => Val.vStr c.1 :: condValues c).flatten) := by
  rw [applyFilter]
  rw [addJoins_topAnd3 (jsonSchema coll rootF) sac coll fuel CState.init rootF bp
    conds hroot hbp hcs]
  simp only [exceptOkBind]
  rw [compileFilter_topAnd]
  simp only [exceptOkBind]
  rw [renderStmts_grpAnd_merged coll rootF bp conds fuel
    { CState.init with
        joins := CState.init.joins ++ conds.map fun c => rootF :: (bp ++ [c.1]) }
    hroot hrne hbp hcs hlen hsplit (by rfl)]
  simp only [exceptOkBind, CState.init, List.nil_append]
  have hpar : ("(" ++ ("exists (" ++
      ("select * from json_array_elements(" ++ quoteId coll ++ "." ++
        quoteId rootF ++ ") as " ++ genAlias 0 ++ " where " ++
        ("exists (select 1 from jsonb_path_query((" ++ genAlias 0 ++
         ")::jsonb, ?) as json_path_value(json_value) where " ++
         String.intercalate " AND " (conds.map expectedPiece) ++ ")")) ++ ")") ++
      ")") ≠ "" :=
    ne_empty_append _ _ (ne_empty_append _ _ (by decide))
  rw [joinKept_singleton Log.and _ _ hpar]
  rw [if_neg hpar]
  rfl

/-- Witness for `C1_and_group_single_merged_exists`: the spec's example —
`type _eq "type_1"` and `number _gte 2` under one `_and` on
`activities.deliverables` — compiles to one EXISTS over `$.deliverables[*]`
with bindings `["$.deliverables[*]", "type", "type_1", "number", 2]`. -/
theorem C1_and_group_single_merged_exists_witness :
    applyFilter 3 (jsonSchema "test" "activities") "test" noCasesPred
      (Val.obj [("_and", Val.arr
        [mkCondFilter ["activities", "deliverables"] ("type", "_eq", Val.vStr "type_1"),
         mkCondFilter ["activities", "deliverables"] ("number", "_gte", Val.vInt 2)])]) =
    .ok
      (⟨[⟨"test", "activities", "alias0",
           [(Log.and, ⟨"$.deliverables[*]",
              "(jsonb_extract_path_text(json_value, ?)::text = ?) AND (jsonb_extract_path_text(json_value, ?)::float >= ?)",
              [Val.vStr "type", Val.vStr "type_1", Val.vStr "number", Val.vInt 2]⟩)]⟩],
        [("test.activities", 0)],
        [["activities", "deliverables", "type"], ["activities", "deliverables", "number"]],
        1⟩,
       "select * where (exists (select * from json_array_elements(\"test\".\"activities\") as alias0 where exists (select 1 from jsonb_path_query((alias0)::jsonb, ?) as json_path_value(json_value) where (jsonb_extract_path_text(json_value, ?)::text = ?) AND (jsonb_extract_path_text(json_value, ?)::float >= ?))))",
       [Val.vStr "$.deliverables[*]", Val.vStr "type", Val.vStr "type_1",
        Val.vStr "number", Val.vInt 2]) := by
  have h := C1_and_group_single_merged_exists "test" "activities" ["deliverables"]
    [("type", "_eq", Val.vStr "type_1"), ("number", "_gte", Val.vInt 2)]
    noCasesPred 0 (by decide) (by decide)
    (by intro s hs; fin_cases hs <;> decide)
    (by
      intro c hc
      fin_cases hc
      · exact ⟨by decide, ⟨by decide, by decide, by decide, by decide, by decide⟩,
          ⟨([Val.vStr "type_1"], Val.vStr "type_1"), by decide⟩⟩
      · exact ⟨by decide, ⟨by decide, by decide, by decide, by decide, by decide⟩,
          ⟨([Val.vInt 2], Val.vInt 2), by decide⟩⟩)
    (by decide) (by decide)
  exact h.trans (by decide)

theorem flatMap_eq_map {α β : Type} (f : α → List β) (h : α → β) (l : List α)
    (hf : ∀ x ∈ l, f x = [h x]) : l.flatMap f = l.map h := by
  induction l with
  | nil => rfl
  | cons x t ih =>
    rw [List.flatMap_cons, hf x (List.mem_cons_self x t),
      ih (fun y hy => hf y (List.mem_cons_of_mem x hy))]
    rfl

theorem flatMap_map_eq_map {α β γ : Type} (g : α → β) (f : β → List γ)
    (h : α → γ) (l : List α) (hf : ∀ x ∈ l, f (g x) = [h x]) :
    (l.map g).flatMap f = l.map h := by
  induction l with
  | nil => rfl
  | cons x t ih =>
    rw [List.map_cons, List.flatMap_cons, hf x (List.mem_cons_self x t),
      ih (fun y hy => hf y (List.mem_cons_of_mem x hy))]
    rfl

theorem foldl_congr_mem {α β : Type} (l : List α) (f g : β → α → β) (b : β)
    (h : ∀ b' x, x ∈ l → f b' x = g b' x) : l.foldl f b = l.foldl g b := by
  induction l generalizing b with
  | nil => rfl
  | cons x t ih =>
    rw [List.foldl_cons, List.foldl_cons, h b x (List.mem_cons_self x t)]
    exact ih _ (fun b' y hy => h b' y (List.mem_cons_of_mem x hy))

theorem handleJson_nested_andMerged (st : CState) (id : Nat) (key : String)
    (bp : List String) (conds : List (String × String × Val)) (logical : Log)
    (hbp : ∀ s ∈ bp, sigil s = false) (hbpne : bp ≠ [])
    (hcs : ∀ c ∈ conds, goodCond c) (hlen : 1 < conds.length) :
    handleJsonFieldWithAndOr st id key
      (Val.vObjCons "_and" (Val.arr (conds.map fun c => mkCondFilter bp c))
        Val.vObjNil) logical =
    .ok (pushClause st id (Log.and, mergedOf (buildJsonPath (key :: bp)) conds)) := by
  rw [handleJsonFieldWithAndOr]
  simp only [Val.objEntries, List.isEmpty_cons, Bool.false_eq_true, if_false,
    exceptFoldlM_singleton]
  simp only [if_true]
  simp only [isArr_arr, arrElems_arr, Bool.not_true, Bool.false_eq_true, if_false]
  have hconds : (conds.map fun c => mkCondFilter bp c).flatMap
      (fun subFilter => (subFilter.objEntries).filterMap fun sv =>
        match getOperation sv.1 sv.2 with
        | none => none
        | some (op, opv) =>
          some ({ field := (key :: getFilterPath sv.1 sv.2).getLastD "",
                  path := key :: getFilterPath sv.1 sv.2,
                  operator := op, value := opv } : JCond)) =
      conds.map (toJC key bp) := by
    refine flatMap_map_eq_map _ _ (toJC key bp) _ ?_
    intro c hc
    obtain ⟨hf, hgo, _⟩ := hcs c hc
    cases bp with
    | nil => exact absurd rfl hbpne
    | cons b0 brest =>
      have hb0 : sigil b0 = false := hbp b0 (List.mem_cons_self b0 brest)
      have hbrest : ∀ x ∈ brest, sigil x = false :=
        fun x hx => hbp x (List.mem_cons_of_mem b0 hx)
      have hgo' := getOperation_nest b0 brest c.1 c.2.1 c.2.2 hb0 hbrest hf hgo
      have hfp' := getFilterPath_nest b0 brest c.1 c.2.1 c.2.2 hbrest hf hgo
      rw [mkCondFilter_entries]
      rw [List.filterMap_cons, List.filterMap_nil]
      simp only [hgo', hfp']
      simp only [toJC, List.cons_append]
      rw [show (key :: b0 :: (brest ++ [c.1])).getLastD "" =
        (key :: (b0 :: brest ++ [c.1])).getLastD "" from rfl]
      rw [getLastD_cons_concat]
  rw [hconds]
  have hgrp : (conds.map (toJC key bp)).foldl
      (fun m c => mapPush m (String.intercalate "." c.path.dropLast) c) [] =
      [(String.intercalate "." (key :: bp), conds.map (toJC key bp))] := by
    rw [foldl_congr_mem _ _
      (fun m c => mapPush m (String.intercalate "." (key :: bp)) c) []
      (by
        intro b' x hx
        obtain ⟨c, hc, rfl⟩ := List.mem_map.mp hx
        rw [show (toJC key bp c).path = key :: (bp ++ [c.1]) from rfl]
        rw [dropLast_cons_concat])]
    exact mapPush_fold_from_nil _ _
      (List.ne_nil_of_length_pos (by simp; omega))
  rw [hgrp, exceptFoldlM_singleton]
  cases conds with
  | nil => simp at hlen
  | cons c0 tl =>
    cases tl with
    | nil => simp at hlen
    | cons c1 rest =>
      simp only [List.map_cons]
      rw [show (toJC key bp c0).path = key :: (bp ++ [c0.1]) from rfl]
      rw [dropLast_cons_concat]
      rw [show (toJC key bp c0 :: toJC key bp c1 :: rest.map (toJC key bp)) =
        ((c0 :: c1 :: rest).map (toJC key bp)) from rfl]
      rw [mergedClause_uniform (buildJsonPath (key :: bp)) key bp (c0 :: c1 :: rest)
        (fun c hc => (hcs c hc).2.2)]
      rw [exceptOkBind]
      rfl

/-- C10 (amended): for a group of two or more sibling JSON conditions on the
same root field and base path, the two merge code paths bind *different*
JSON-path strings: `handleJsonFieldWithAndOr` (the `_and` nested inside the
JSON field's value) binds `buildJsonPath basePath` with no trailing `[*]`,
while `handleCombinedJsonConditionsInAnd` (the `_and` at the top level of
the filter) binds `buildJsonPath basePath ++ "[*]"`; only the top-level path
targets individual elements of the array at the base path. -/
theorem C10_amended_merged_paths (coll rootF : String) (bp : List String)
    (conds : List (String × String × Val)) (st st' : CState) (id : Nat)
    (logical : Log)
    (hrne : rootF ≠ "")
    (hbp : ∀ s ∈ bp, sigil s = false) (hbpne : bp ≠ [])
    (hcs : ∀ c ∈ conds, goodCond c) (hlen : 1 < conds.length)
    (hsplit : splitOnChar '.' (rootF ++ "." ++ String.intercalate "." bp) =
      rootF :: bp)
    (hq : lookupA st'.jsonQueries (coll ++ "." ++ rootF) = none) :
    handleJsonFieldWithAndOr st id rootF
      (Val.vObjCons "_and" (Val.arr (conds.map fun c => mkCondFilter bp c))
        Val.vObjNil) logical =
      .ok (pushClause st id
        (Log.and, mergedOf (buildJsonPath (rootF :: bp)) conds)) ∧
    handleCombinedJsonConditionsInAnd (jsonSchema coll rootF) coll
      (conds.map fun c => mkCondFilter (rootF :: bp) c) st' =
      .ok
        ({ st' with
            builders := st'.builders ++
              [⟨coll, rootF, genAlias st'.nextAlias,
                [(Log.and,
                  mergedOf (buildJsonPath (rootF :: bp) ++ "[*]") conds)]⟩],
            jsonQueries := st'.jsonQueries ++
              [(coll ++ "." ++ rootF, st'.builders.length)],
            nextAlias := st'.nextAlias + 1 },
         [(Log.and, Stmt.existsRef st'.builders.length)],
         [(rootF ++ "." ++ String.intercalate "." bp,
           conds.map (toJC rootF bp))]) ∧
    buildJsonPath (rootF :: bp) ≠ buildJsonPath (rootF :: bp) ++ "[*]" :=
  ⟨handleJson_nested_andMerged st id rootF bp conds logical hbp hbpne hcs hlen,
   handleCombined_uniform coll rootF bp conds st' hbp hcs hlen hrne hsplit hq,
   by
     intro h
     have h2 : (buildJsonPath (rootF :: bp)).data.length =
         ((buildJsonPath (rootF :: bp)) ++ "[*]").data.length := by rw [← h]
     rw [String.data_append] at h2
     simp at h2⟩

/-- Witness for `C10_amended_merged_paths` at the two conditions of the
spec's example on `activities.deliverables`. -/
theorem C10_amended_merged_paths_witness :
    handleJsonFieldWithAndOr
      ⟨[⟨"test", "activities", "alias0", []⟩], [("test.activities", 0)], [], 1⟩ 0
      "activities"
      (Val.vObjCons "_and" (Val.arr
        ([("type", "_eq", Val.vStr "type_1"),
          ("number", "_gte", Val.vInt 2)].map fun c =>
            mkCondFilter ["deliverables"] c)) Val.vObjNil) Log.and =
      .ok (pushClause
        ⟨[⟨"test", "activities", "alias0", []⟩], [("test.activities", 0)], [], 1⟩ 0
        (Log.and, mergedOf (buildJsonPath ["activities", "deliverables"])
          [("type", "_eq", Val.vStr "type_1"), ("number", "_gte", Val.vInt 2)])) ∧
    handleCombinedJsonConditionsInAnd (jsonSchema "test" "activities") "test"
      ([("type", "_eq", Val.vStr "type_1"),
        ("number", "_gte", Val.vInt 2)].map fun c =>
          mkCondFilter ["activities", "deliverables"] c) CState.init =
      .ok
        ({ CState.init with
            builders := CState.init.builders ++
              [⟨"test", "activities", genAlias CState.init.nextAlias,
                [(Log.and,
                  mergedOf (buildJsonPath ["activities", "deliverables"] ++ "[*]")
                    [("type", "_eq", Val.vStr "type_1"),
                     ("number", "_gte", Val.vInt 2)])]⟩],
            jsonQueries := CState.init.jsonQueries ++
              [("test" ++ "." ++ "activities", CState.init.builders.length)],
            nextAlias := CState.init.nextAlias + 1 },
         [(Log.and, Stmt.existsRef CState.init.builders.length)],
         [("activities" ++ "." ++ String.intercalate "." ["deliverables"],
           [("type", "_eq", Val.vStr "type_1"),
            ("number", "_gte", Val.vInt 2)].map
             (toJC "activities" ["deliverables"]))]) ∧
    buildJsonPath ["activities", "deliverables"] ≠
      buildJsonPath ["activities", "deliverables"] ++ "[*]" :=
  C10_amended_merged_paths "test" "activities" ["deliverables"]
    [("type", "_eq", Val.vStr "type_1"), ("number", "_gte", Val.vInt 2)]
    ⟨[⟨"test", "activities", "alias0", []⟩], [("test.activities", 0)], [], 1⟩
    CState.init 0 Log.and (by decide)
    (by intro s hs; fin_cases hs; decide) (by decide)
    (by
      intro c hc
      fin_cases hc
      · exact ⟨by decide, ⟨by decide, by decide, by decide, by decide, by decide⟩,
          ⟨([Val.vStr "type_1"], Val.vStr "type_1"), by decide⟩⟩
      · exact ⟨by decide, ⟨by decide, by decide, by decide, by decide, by decide⟩,
          ⟨([Val.vInt 2], Val.vInt 2), by decide⟩⟩)
    (by decide) (by decide) (by decide)
